import Mathlib

/-! The request/response session protocol of groovyclient.c

A shallow embedding of `src/main/c/groovyclient.c`.

* A byte is a `Nat`; a C string is the list of its bytes before the
  terminating NUL.
* A `char` array is the list of the bytes the code has written to it.
* `exit`, undefined behaviour (a NULL dereference, an access outside an
  object, a read of a byte nobody wrote, signed overflow) and a loop that
  never ends are results of their own, see `Outcome`.
* The environment (what the server sends, what `read(0, ..)` returns, what
  `select` reports) is explicit state, see `World` and `Event`.
-/

namespace GroovyClient

/-! ## Constants -/

/-- Bytes of a string literal of the source. -/
def str (s : String) : List Nat := s.toList.map Char.toNat

abbrev BUFFER_SIZE : Nat := 512
abbrev MAX_HEADER_KEY_LEN : Nat := 30
abbrev MAX_HEADER_VALUE_LEN : Nat := 512
abbrev MAX_HEADER : Nat := 10
abbrev CR : Nat := 0x0d
abbrev LF : Nat := 0x0a
abbrev INT_MAX : Int := 2147483647
abbrev INT_MIN : Int := -2147483648

def HEADER_KEY_CURRENT_WORKING_DIR : List Nat := str "Cwd"
def HEADER_KEY_ARG : List Nat := str "Arg"
def HEADER_KEY_CP : List Nat := str "Cp"
def HEADER_KEY_CHANNEL : List Nat := str "Channel"
def HEADER_KEY_SIZE : List Nat := str "Size"
def HEADER_KEY_STATUS : List Nat := str "Status"

/-- How a call ends. -/
inductive Outcome (α : Type) where
  /-- The call returns. -/
  | ok (a : α)
  /-- The process ends in `exit(status)` after printing `msg` on stderr. -/
  | exit (status : Int) (msg : List Nat)
  /-- Undefined behaviour. -/
  | fault
  /-- A loop that never ends. -/
  | hang
  deriving DecidableEq, Repr

/-- Sequencing: the second call runs when the first one returns. -/
def Outcome.bind {α β : Type} (x : Outcome α) (f : α → Outcome β) : Outcome β :=
  match x with
  | .ok a => f a
  | .exit s m => .exit s m
  | .fault => .fault
  | .hang => .hang

/-! ## libc -/

/-- The C locale's `isspace`: space, `\t`, `\n`, `\v`, `\f`, `\r`. -/
def isspace (c : Nat) : Bool := c == 32 || (9 ≤ c && c ≤ 13)

/-- The C locale's `isdigit`. -/
def isdigit (c : Nat) : Bool := 48 ≤ c && c ≤ 57

/-- The string a buffer holds: its bytes before the first NUL. -/
def c_string (buf : List Nat) : List Nat := buf.takeWhile (fun c => c != 0)

/-- The string held by a `char` array of which only the bytes `image` were
ever written: `none` when none of them is a NUL, so that reading the string
runs into bytes nobody wrote. -/
def string_of (image : List Nat) : Option (List Nat) :=
  if 0 ∈ image then some (c_string image) else none

/-- The bytes `fgets` stores given room for `n` of them: it stops after a
newline, at end of stream, or when the room is used up. The second
component is what is left of the stream. -/
def fgets_line : Nat → List Nat → List Nat × List Nat
  | 0, s => ([], s)
  | _ + 1, [] => ([], [])
  | n + 1, c :: s =>
    if c = LF then ([c], s) else (c :: (fgets_line n s).1, (fgets_line n s).2)

/-- The call `fgets(buf, size, stream)`: `none` is the NULL it returns at end
of stream, otherwise the at most `size - 1` bytes stored (a NUL follows
them) and the rest of the stream. -/
def fgets (size : Nat) (stream : List Nat) : Option (List Nat × List Nat) :=
  match stream with
  | [] => none
  | _ :: _ => some (fgets_line (size - 1) stream)

/-- One call of `strtok` scanning the string `s` with the delimiter set
`delim`: `none` is the NULL it returns when `s` holds delimiters only,
otherwise the token and the text after the delimiter that ended it, which
is where the next `strtok(NULL, ..)` starts. -/
def strtok (s : List Nat) (delim : List Nat) : Option (List Nat × List Nat) :=
  match s.dropWhile (fun c => decide (c ∈ delim)) with
  | [] => none
  | c :: t =>
    some ((c :: t).takeWhile (fun c => !decide (c ∈ delim)),
          ((c :: t).dropWhile (fun c => !decide (c ∈ delim))).drop 1)

/-- The `n` bytes `strncpy(dst, src, n)` writes to `dst`: the string, then
NULs up to `n` bytes; no NUL at all when the string has `n` bytes or more. -/
def strncpy (src : List Nat) (n : Nat) : List Nat :=
  (src ++ List.replicate (n - src.length) 0).take n

/-- Whether `strcmp(a, k) == 0`, for a `char` array of which only the bytes
`a` were ever written and a string `k`: `none` when the comparison reads
past the written bytes. -/
def strcmp_eq : List Nat → List Nat → Option Bool
  | [], _ => none
  | c :: _, [] => some (c == 0)
  | c :: a, d :: k => if c = d then strcmp_eq a k else some false

/-- The digits at the start of a string, as a number (the loop of `atoi`). -/
def atoi_digits : List Nat → Nat → Nat
  | [], acc => acc
  | c :: s, acc => if isdigit c then atoi_digits s (acc * 10 + (c - 48)) else acc

/-- The call `atoi(s)` on the string held by the array `s`: leading white
space, an optional sign, then digits. `none` when the number is not an
`int`, which the C standard leaves undefined. -/
def atoi (s : List Nat) : Option Int :=
  let r : Int :=
    match (c_string s).dropWhile isspace with
    | [] => 0
    | c :: t =>
      if c = 45 then - (atoi_digits t 0 : Int)
      else if c = 43 then (atoi_digits t 0 : Int)
      else (atoi_digits (c :: t) 0 : Int)
  if INT_MIN ≤ r ∧ r ≤ INT_MAX then some r else none

/-- Decimal digits of `n` in front of `acc`; `fuel` bounds the number of
digits. -/
def utoa_loop : Nat → Nat → List Nat → List Nat
  | 0, _, acc => acc
  | fuel + 1, n, acc =>
    if n < 10 then (48 + n) :: acc else utoa_loop fuel (n / 10) ((48 + n % 10) :: acc)

/-- What `%d` prints for a number that is not negative. -/
def utoa (n : Nat) : List Nat := utoa_loop (n + 1) n []

/-- What `%d` prints. -/
def itoa (i : Int) : List Nat :=
  if i < 0 then 45 :: utoa i.natAbs else utoa i.natAbs

/-! ## Response headers -/

/-- The struct `header_t`: the bytes written to `key[0..30)` and to
`value[0..512)`. Nothing in the program writes `key[30]` or `value[512]`. -/
structure header_t where
  key : List Nat
  value : List Nat
  deriving DecidableEq, Repr

/-- The function `read_header` on the line `fgets` stored in `buf`; the
result is what it writes to `*header`. -/
def read_header (buf : List Nat) : Outcome header_t :=
  match strtok (c_string buf) (str " :") with
  | none => .fault
  | some (p, rest) =>
    if p.length > MAX_HEADER_KEY_LEN then
      .exit 1 (str "\nkey " ++ p ++ str " too long\n")
    else
      match strtok rest (str " :\n") with
      | none => .fault
      | some (tok, _) =>
        let p2 := tok.dropWhile isspace
        if p2.head? = some LF ∨ p2.head? = none then
          .exit 1 (str "\nformat error\n")
        else if p2.length > MAX_HEADER_VALUE_LEN then
          .exit 1 (str "\nkey " ++ p2 ++ str " too long\n")
        else
          .ok { key := strncpy p MAX_HEADER_KEY_LEN, value := strncpy p2 MAX_HEADER_VALUE_LEN }

/-- The statement `if (*p == CR) p++;` of `read_headers` on the line read. -/
def skip_cr (line : List Nat) : List Nat :=
  if line.head? = some CR then line.drop 1 else line

/-- The loop of `read_headers`: `headers` are the entries stored so far, so
that `pos` is `headers.length`. Every turn takes at least one byte off the
stream; `fuel` counts the turns. The result is the count returned, the
entries stored and the rest of the stream. -/
def read_headers_loop :
    Nat → List Nat → List header_t → Nat → Outcome (Nat × List header_t × List Nat)
  | 0, _, _, _ => .hang
  | fuel + 1, stream, headers, header_buf_size =>
    match fgets BUFFER_SIZE stream with
    | none => .ok (0, headers, stream)
    | some (line, rest) =>
      if (skip_cr line).head? = some LF then
        .ok (headers.length, headers, rest)
      else if header_buf_size ≤ headers.length then
        .fault
      else
        match read_header line with
        | .ok h =>
          if headers.length + 1 ≥ header_buf_size then
            .exit 1 (str "\ntoo many headers\n")
          else
            read_headers_loop fuel rest (headers ++ [h]) header_buf_size
        | .exit s m => .exit s m
        | .fault => .fault
        | .hang => .hang

/-- The function `read_headers`. -/
def read_headers (soc_stream : List Nat) (header_buf_size : Nat) :
    Outcome (Nat × List header_t × List Nat) :=
  read_headers_loop (soc_stream.length + 1) soc_stream [] header_buf_size

/-- The function `find_header`: `some value` for the pointer it returns,
`none` for NULL. -/
def find_header : List header_t → List Nat → Nat → Outcome (Option (List Nat))
  | _, _, 0 => .ok none
  | [], _, _ + 1 => .fault
  | h :: hs, key, n + 1 =>
    match strcmp_eq h.key key with
    | none => .fault
    | some true => .ok (some h.value)
    | some false => find_header hs key n

/-! ## The request -/

/-- Writing the bytes `bs` at offset `i` of the array `mem`; a write that does
not fit in the array is undefined behaviour. -/
def store (mem : List Nat) (i : Nat) (bs : List Nat) : Outcome (List Nat) :=
  if i + bs.length ≤ mem.length then
    .ok (mem.take i ++ bs ++ mem.drop (i + bs.length))
  else
    .fault

/-- The call `strlen(mem + p)`: `none` when no NUL follows inside the array. -/
def strlen_at (mem : List Nat) (p : Nat) : Option Nat :=
  if 0 ∈ mem.drop p then some (c_string (mem.drop p)).length else none

/-- The call `strcat(mem + p, s)`: `s` and a NUL go where the string that
starts at offset `p` ends. -/
def strcat (mem : List Nat) (p : Nat) (s : List Nat) : Outcome (List Nat) :=
  match strlen_at mem p with
  | none => .fault
  | some k => store mem (p + k) (s ++ [0])

/-- The loop of `send_header` over `argv[i]`, from `i = 1` on: `args` are the
arguments still to come, `mem` is `read_buf` and `p` the offset of the
pointer `p` in it. -/
def send_header_args : List (List Nat) → List Nat → Nat → Outcome (List Nat × Nat)
  | [], mem, p => .ok (mem, p)
  | a :: args, mem, p =>
    (strcat mem p HEADER_KEY_ARG).bind fun m1 =>
    (strcat m1 p (str ": ")).bind fun m2 =>
    (strcat m2 p a).bind fun m3 =>
    (strcat m3 p (str "\n")).bind fun m4 =>
    match strlen_at m4 p with
    | none => .fault
    | some k => send_header_args args m4 (p + k)

/-- The start of `send_header`, lines 113 to 125: the `Cwd` line. `stack` is
what the `BUFFER_SIZE` bytes of the local array `read_buf` hold when the
function is entered (the array is not initialised) and `getcwd` is the
string that call stores, or `none` when it fails. The result is `read_buf`
and the offset of `p` in it. Of what `perror` prints only the text passed
to it is kept. -/
def send_header_cwd (stack : List Nat) (getcwd : Option (List Nat)) :
    Outcome (List Nat × Nat) :=
  (store stack 0 (HEADER_KEY_CURRENT_WORKING_DIR ++ str ": " ++ [0])).bind fun m0 =>
  match getcwd with
  | none => .exit 1 (str "getcwd")
  | some cwd =>
    (store m0 (HEADER_KEY_CURRENT_WORKING_DIR ++ str ": ").length (cwd ++ [0])).bind fun m1 =>
    match strlen_at m1 (HEADER_KEY_CURRENT_WORKING_DIR ++ str ": ").length with
    | none => .fault
    | some k =>
      (store m1 ((HEADER_KEY_CURRENT_WORKING_DIR ++ str ": ").length + k) [LF]).bind fun m2 =>
      .ok (m2, (HEADER_KEY_CURRENT_WORKING_DIR ++ str ": ").length + k + 1)

/-- The CLASSPATH part of `send_header`, lines 139 to 143; `classpath` is the
result of `getenv("CLASSPATH")`. -/
def send_header_cp (classpath : Option (List Nat)) (mem : List Nat) (p : Nat) :
    Outcome (List Nat × Nat) :=
  match classpath with
  | none => .ok (mem, p)
  | some cp =>
    if cp ≠ [] then
      (store mem p (HEADER_KEY_CP ++ str ": " ++ cp ++ str "\n" ++ [0])).bind fun m =>
      .ok (m, p + (HEADER_KEY_CP ++ str ": " ++ cp ++ str "\n").length)
    else .ok (mem, p)

/-- The end of `send_header`, lines 145 to 150: the result is what it writes
to the socket. -/
def send_header_end (mem : List Nat) (p : Nat) : Outcome (List Nat) :=
  (store mem p [LF]).bind fun m =>
  if p + 1 > BUFFER_SIZE then
    .exit 1 (str "\nheader size too big\n")
  else
    .ok (m.take (p + 1))

/-- The function `send_header`; the result is what it writes to the socket.
`argv` is the argument vector (`argn` is its length). -/
def send_header (stack : List Nat) (getcwd : Option (List Nat)) (argv : List (List Nat))
    (classpath : Option (List Nat)) : Outcome (List Nat) :=
  (send_header_cwd stack getcwd).bind fun r0 =>
  (send_header_args (argv.drop 1) r0.1 r0.2).bind fun r1 =>
  (send_header_cp classpath r1.1 r1.2).bind fun r2 =>
  send_header_end r2.1 r2.2

/-! ## The session -/

/-- The static variables of `split_socket_output`, once `read_buf` is not
NULL: the size of the block `read_buf` points to, `read_buf_size`, and the
bytes at the start of the block that were written so far. -/
structure ReadBuf where
  allocated : Nat
  read_buf_size : Int
  content : List Nat
  deriving DecidableEq, Repr

/-- The environment of a session. -/
structure World where
  /-- What the server sends from now on until it closes the connection. -/
  sock_in : List Nat
  /-- What was written to the socket. -/
  sock_out : List Nat
  /-- What the coming calls of `read(0, ..)` return: `none` is `-1`, the
  empty list is end of input. -/
  stdin : List (Option (List Nat))
  /-- What was written to file descriptor 1. -/
  out : List Nat
  /-- What was written to file descriptor 2. -/
  err : List Nat
  /-- The static variables of `split_socket_output`; `none` while
  `read_buf` is NULL. -/
  read_buf : Option ReadBuf
  deriving DecidableEq, Repr

/-- The loop `while (read_buf_size < size) read_buf_size *= 2;` with `fuel`
turns at hand. A product that is not an `int` is undefined behaviour. From
`read_buf_size = 0` the loop never ends, see `grow_zero`; from any other
value 64 turns are more than it takes, see `grow_hang_only_from_zero`. -/
def grow : Nat → Int → Int → Outcome Int
  | 0, _, _ => .hang
  | fuel + 1, read_buf_size, size =>
    if read_buf_size < size then
      if INT_MIN ≤ read_buf_size * 2 ∧ read_buf_size * 2 ≤ INT_MAX then
        grow fuel (read_buf_size * 2) size
      else .fault
    else .ok read_buf_size

/-- The sizing of the buffer in `split_socket_output`, lines 244 to 253. -/
def size_read_buf (rb : Option ReadBuf) (size : Int) : Outcome ReadBuf :=
  let rb0 : ReadBuf :=
    match rb with
    | none => { allocated := BUFFER_SIZE, read_buf_size := size, content := [] }
    | some b => b
  if rb0.read_buf_size < size then
    (grow 64 rb0.read_buf_size size).bind fun n =>
    .ok { allocated := n.toNat, read_buf_size := n, content := rb0.content.take n.toNat }
  else .ok rb0

/-- The function `split_socket_output`. A negative `size` becomes a huge
`size_t`, bytes read past the end of the block overflow it, and bytes
written out that nobody stored are indeterminate: all three are `fault`.
The value returned is always 0. -/
def split_socket_output (w : World) (stream_identifier : List Nat) (size : Int) :
    Outcome (Int × World) :=
  (match strcmp_eq stream_identifier (str "o") with
    | none => Outcome.fault
    | some true => .ok true
    | some false =>
      match strcmp_eq stream_identifier (str "e") with
      | none => .fault
      | some true => .ok false
      | some false =>
        .exit 1 (str "\nunrecognizable stream identifier: " ++ c_string stream_identifier
          ++ str ".\n")).bind fun to_stdout =>
  (size_read_buf w.read_buf size).bind fun rb =>
  if size < 0 then .fault
  else if rb.allocated < (w.sock_in.take size.toNat).length then .fault
  else if (w.sock_in.take size.toNat ++
      rb.content.drop (w.sock_in.take size.toNat).length).length < size.toNat then .fault
  else
    let content := w.sock_in.take size.toNat ++
      rb.content.drop (w.sock_in.take size.toNat).length
    .ok (0,
      { w with
        sock_in := w.sock_in.drop size.toNat
        read_buf := some { rb with content := content }
        out := if to_stdout then w.out ++ content.take size.toNat else w.out
        err := if to_stdout then w.err else w.err ++ content.take size.toNat })

/-- The function `send_to_server`. A `read` gets at most `BUFFER_SIZE` bytes
of what is at hand. Of what `perror` prints only the text passed to it is
kept. -/
def send_to_server (w : World) : Outcome (Int × World) :=
  match w.stdin with
  | none :: _ => .exit 1 (str "read failure from stdin")
  | [] =>
    .ok (1, { w with sock_out := w.sock_out ++ (str "Size: " ++ itoa 0 ++ str "\n\n") })
  | some chunk :: more =>
    let ret := (chunk.take BUFFER_SIZE).length
    .ok (if ret = 0 then 1 else 0,
      { w with
        stdin := if BUFFER_SIZE < chunk.length then some (chunk.drop BUFFER_SIZE) :: more
                 else more
        sock_out := w.sock_out ++ (str "Size: " ++ itoa ret ++ str "\n\n")
          ++ chunk.take BUFFER_SIZE })

/-- What one call of `select` reports. -/
inductive Event where
  /-- It returned -1. -/
  | failure
  /-- It returned 0. -/
  | timeout
  /-- It returned a positive number, with descriptor 0 and the socket in
  `read_set` as the flags say. -/
  | ready (stdin : Bool) (sock : Bool)
  deriving DecidableEq, Repr

/-- How `session` ends. -/
inductive Result where
  /-- It returned `status`. -/
  | returned (status : Int) (w : World)
  /-- The process ended in `exit(status)`. -/
  | exited (status : Int) (w : World)
  /-- Undefined behaviour. -/
  | fault
  /-- A loop inside never ends. -/
  | hang
  /-- It waits in `select` and no event comes. -/
  | waiting (stdin_closed : Bool) (w : World)
  deriving DecidableEq, Repr

/-- The stdin part of one turn of the loop of `session`, lines 314 to 316:
the new value of `stdin_closed` and the new environment. -/
def session_stdin (stdin_ready : Bool) (stdin_closed : Bool) (w : World) :
    Outcome (Bool × World) :=
  if !stdin_closed && stdin_ready then
    (send_to_server w).bind fun r => .ok (r.1 != 0, r.2)
  else .ok (stdin_closed, w)

/-- The socket part of one turn of the loop of `session`, lines 318 to 345:
`some status` when it returns `status`, `none` when the loop goes on. -/
def session_socket (w : World) : Outcome (Option Int × World) :=
  (read_headers w.sock_in MAX_HEADER).bind fun r =>
  if r.1 = 0 then .ok (none, { w with sock_in := r.2.2 })
  else
    (find_header r.2.1 HEADER_KEY_STATUS r.1).bind fun status =>
    match status with
    | some v =>
      (match atoi v with
        | none => .fault
        | some stat => .ok (some stat, { w with sock_in := r.2.2 }))
    | none =>
      (find_header r.2.1 HEADER_KEY_CHANNEL r.1).bind fun sid =>
      match sid with
      | none =>
        .ok (some 1, { w with
          sock_in := r.2.2
          err := w.err ++ (str "\nrequired header " ++ HEADER_KEY_CHANNEL ++ str " not found\n") })
      | some sid =>
        (find_header r.2.1 HEADER_KEY_SIZE r.1).bind fun chunk_size =>
        match chunk_size with
        | none =>
          .ok (some 1, { w with
            sock_in := r.2.2
            err := w.err ++ (str "\nrequired header " ++ HEADER_KEY_SIZE ++ str " not found\n") })
        | some n =>
          match atoi n with
          | none => .fault
          | some size =>
            (split_socket_output { w with sock_in := r.2.2 } sid size).bind fun r2 =>
            if r2.1 = -1 then .ok (some 0, r2.2) else .ok (none, r2.2)

/-- The function `session`, one turn of its loop for each event. An `exit`
inside a turn leaves its message on stderr; what the turn took off the
stream before is not recorded. -/
def session : List Event → Bool → World → Result
  | [], stdin_closed, w => .waiting stdin_closed w
  | .failure :: _, _, w => .exited 1 { w with err := w.err ++ str "select failure" }
  | .timeout :: events, stdin_closed, w =>
    session events stdin_closed { w with err := w.err ++ str "\ntimeout?\n" }
  | .ready stdin_ready sock_ready :: events, stdin_closed, w =>
    match session_stdin stdin_ready stdin_closed w with
    | .exit s m => .exited s { w with err := w.err ++ m }
    | .fault => .fault
    | .hang => .hang
    | .ok (closed, w1) =>
      if sock_ready then
        match session_socket w1 with
        | .exit s m => .exited s { w1 with err := w1.err ++ m }
        | .fault => .fault
        | .hang => .hang
        | .ok (some status, w2) => .returned status w2
        | .ok (none, w2) => session events closed w2
      else session events closed w1

/-! ## Concrete inputs -/

/-- The environment at the start of a session whose server sends `sock_in`:
nothing written yet, no input on stdin. -/
def world_of (sock_in : List Nat) : World :=
  { sock_in := sock_in, sock_out := [], stdin := [], out := [], err := [], read_buf := none }

/-- A session under way: an output chunk was dispatched, a stdin chunk was
forwarded, another one is at hand, and the server now sends `sock_in`. -/
def world_under_way (sock_in : List Nat) : World :=
  { sock_in := sock_in
    sock_out := str "Size: 2\n\nhi"
    stdin := [some (str "more")]
    out := str "abc"
    err := []
    read_buf := some { allocated := BUFFER_SIZE, read_buf_size := 3, content := str "abc" } }

/-- The environment `world_under_way` after its stdin chunk was forwarded. -/
def world_forwarded (sock_in : List Nat) : World :=
  { world_under_way sock_in with
    stdin := []
    sock_out := str "Size: 2\n\nhi" ++ str "Size: 4\n\nmore" }

/-- The entry `read_header` stores for the key `k` and the value `v`. -/
def header_of (k v : List Nat) : header_t :=
  { key := strncpy k MAX_HEADER_KEY_LEN, value := strncpy v MAX_HEADER_VALUE_LEN }

/-! ## The header block as the spec encodes it -/

/-- The spec's `encode(headers)`: each header as `<key>: <value>\n`, then
the `\n` that ends the block. -/
def encode_headers : List (List Nat × List Nat) → List Nat
  | [] => str "\n"
  | kv :: hs => kv.1 ++ str ": " ++ kv.2 ++ str "\n" ++ encode_headers hs

/-- A header that `read_header` gives back as it was encoded: key and value
are not empty and hold no NUL, space, ':' or newline, the key has fewer
than `MAX_HEADER_KEY_LEN` bytes, the value does not start with white space,
and the line fits in one `fgets` of `BUFFER_SIZE`. -/
def plain_header (kv : List Nat × List Nat) : Prop :=
  kv.1 ≠ [] ∧ kv.1.length < MAX_HEADER_KEY_LEN
    ∧ (∀ c ∈ kv.1, c ≠ 0 ∧ c ≠ 32 ∧ c ≠ 58 ∧ c ≠ 10)
    ∧ kv.2 ≠ [] ∧ (∀ c ∈ kv.2, c ≠ 0 ∧ c ≠ 32 ∧ c ≠ 58 ∧ c ≠ 10)
    ∧ kv.2.dropWhile isspace = kv.2
    ∧ kv.1.length + kv.2.length + 3 < BUFFER_SIZE

instance (kv : List Nat × List Nat) : Decidable (plain_header kv) := by
  unfold plain_header
  infer_instance

/-! ## The request as the spec encodes it -/

/-- The `Arg` lines of the request: one line `Arg: <value>\n` for each
argument, in order. -/
def arg_lines : List (List Nat) → List Nat
  | [] => []
  | a :: args => str "Arg: " ++ a ++ str "\n" ++ arg_lines args

/-- The `Cp` line of the request: `Cp: <value>\n` when the variable is set
and not empty, nothing otherwise. -/
def cp_line : Option (List Nat) → List Nat
  | none => []
  | some cp => if cp ≠ [] then str "Cp: " ++ cp ++ str "\n" else []

/-- The request of the spec: `Cwd: <cwd>\n`, the `Arg` lines for `argv[1]`
and up, the `Cp` line, and the `\n` that ends the block. -/
def request (cwd : List Nat) (argv : List (List Nat)) (classpath : Option (List Nat)) :
    List Nat :=
  str "Cwd: " ++ cwd ++ str "\n" ++ arg_lines (argv.drop 1) ++ cp_line classpath ++ str "\n"

/-! ## Connecting to the server -/

/-- What the calls inside one `open_socket` give: whether `gethostbyname`
finds the host, the value `socket` returns, the value `connect` returns and
the `errno` it leaves. -/
structure Attempt where
  gethostbyname : Bool
  socket : Int
  connect : Int
  errno : Int
  deriving DecidableEq, Repr

/-- The function `open_socket`. `ECONNREFUSED` is the constant of
`<sys/errno.h>`. The condition of line 92, `errno = ECONNREFUSED`, is an
assignment: its value is the constant, whatever `connect` left in `errno`.
Of what `perror` prints only the text passed to it is kept. -/
def open_socket (ECONNREFUSED : Int) (a : Attempt) : Outcome Int :=
  if a.gethostbyname = false then .exit 1 (str "gethostbyname")
  else if a.socket < 0 then .exit 1 (str "socket")
  else if a.connect < 0 then
    if (fun (_ : Int) => ECONNREFUSED) a.errno ≠ 0 then .ok (-1)
    else .exit 1 (str "connect")
  else .ok a.socket

/-- What `stat(path, &buf)` finds in `mk_dir`. -/
inductive Stat where
  /-- It returns -1 with `errno == ENOENT`. -/
  | absent
  /-- It returns -1 with another `errno`. -/
  | failed
  /-- The path is a directory. -/
  | directory
  /-- The path is something else. -/
  | other
  deriving DecidableEq, Repr

/-- The function `mk_dir`; the result is the commands it passes to `system`. -/
def mk_dir (path : List Nat) (st : Stat) : Outcome (List (List Nat)) :=
  match st with
  | .absent => .ok [str "mkdir " ++ path]
  | .failed => .exit 1 (str "stat")
  | .directory => .ok []
  | .other => .exit 1 (str "\npath " ++ path ++ str " is not directory.")

/-- The start of the string `s` up to and including its last `/`: what
lines 389 to 395 of `start_server` keep of `argv[0]`. -/
def dir_part (s : List Nat) : List Nat :=
  (s.reverse.dropWhile (fun c => c != 47)).reverse

/-- What one call of `start_server` finds: the result of `getenv("HOME")`
and of the `stat` of each of the two directories. -/
structure StartEnv where
  home : Option (List Nat)
  stat1 : Stat
  stat2 : Stat
  deriving DecidableEq, Repr

/-- The function `start_server`; the result is the commands it passes to
`system`, in order. `MAXPATHLEN` is the constant of `<sys/param.h>`; a
string that does not fit in the arrays of that size, a NULL `HOME` and a
NULL `argv[0]` are undefined behaviour. The `sleep` is not modelled. -/
def start_server (MAXPATHLEN : Nat) (env : StartEnv) (argv : List (List Nat)) :
    Outcome (List (List Nat)) :=
  match env.home with
  | none => .fault
  | some home =>
    if MAXPATHLEN < (home ++ str "/" ++ str ".groovy").length + 1 then .fault
    else
      (mk_dir (home ++ str "/" ++ str ".groovy") env.stat1).bind fun c1 =>
      if MAXPATHLEN < (home ++ str "/" ++ str ".groovy/groovyserver").length + 1 then .fault
      else
        (mk_dir (home ++ str "/" ++ str ".groovy/groovyserver") env.stat2).bind fun c2 =>
        match argv with
        | [] => .fault
        | argv0 :: _ =>
          if MAXPATHLEN < argv0.length + 1 then .fault
          else if MAXPATHLEN < (dir_part argv0 ++ str "groovyserver"
              ++ str " >> ~/.groovy/groovyserver/groovyserver.log 2>&1").length + 1 then .fault
          else
            .ok (c1 ++ c2 ++ [dir_part argv0 ++ str "groovyserver"
              ++ str " >> ~/.groovy/groovyserver/groovyserver.log 2>&1"])

/-- A call `main` makes, in the order of the calls. -/
inductive Call where
  | start_server
  | send_header (fd : Int)
  | session (fd : Int)
  deriving DecidableEq, Repr

/-- How the process ends. -/
inductive Ending where
  /-- In `exit(status)`. -/
  | exit (status : Int) (w : World)
  /-- In undefined behaviour. -/
  | fault
  /-- In a loop that never ends. -/
  | hang
  /-- It does not end as far as the environment is given: it waits in
  `select`, or the connection attempts given are used up. -/
  | pending (w : World)
  deriving DecidableEq, Repr

/-- A run of `main`: the calls it made and how it ended. -/
structure Run where
  calls : List Call
  ending : Ending
  deriving DecidableEq, Repr

/-- The end of `main`, lines 414 to 416, on the connected socket `fd`. -/
def main_session (fd : Int) (argv : List (List Nat)) (stack : List Nat)
    (getcwd classpath : Option (List Nat)) (events : List Event) (w : World)
    (calls : List Call) : Run :=
  match send_header stack getcwd argv classpath with
  | .exit s m => { calls := calls ++ [.send_header fd],
                   ending := .exit s { w with err := w.err ++ m } }
  | .fault => { calls := calls ++ [.send_header fd], ending := .fault }
  | .hang => { calls := calls ++ [.send_header fd], ending := .hang }
  | .ok request =>
    { calls := calls ++ [.send_header fd, .session fd]
      ending :=
        match session events false { w with sock_out := w.sock_out ++ request } with
        | .returned status w1 => .exit status w1
        | .exited status w1 => .exit status w1
        | .fault => .fault
        | .hang => .hang
        | .waiting _ w1 => .pending w1 }

/-- The loop of `main`, lines 409 to 412, and what follows it: each
connection attempt comes with what the `start_server` after it would find.
The handler of SIGINT is not modelled. -/
def main_loop (ECONNREFUSED : Int) (MAXPATHLEN : Nat) (argv : List (List Nat))
    (stack : List Nat) (getcwd classpath : Option (List Nat)) (events : List Event) :
    List (Attempt × StartEnv) → World → List Call → Run
  | [], w, calls => { calls := calls, ending := .pending w }
  | (a, env) :: attempts, w, calls =>
    match open_socket ECONNREFUSED a with
    | .exit s m => { calls := calls, ending := .exit s { w with err := w.err ++ m } }
    | .fault => { calls := calls, ending := .fault }
    | .hang => { calls := calls, ending := .hang }
    | .ok fd_soc =>
      if fd_soc = -1 then
        match start_server MAXPATHLEN env argv with
        | .exit s m =>
          { calls := calls ++ [.start_server]
            ending := .exit s { w with err := w.err ++ str "starting server..\n" ++ m } }
        | .fault => { calls := calls ++ [.start_server], ending := .fault }
        | .hang => { calls := calls ++ [.start_server], ending := .hang }
        | .ok _ =>
          main_loop ECONNREFUSED MAXPATHLEN argv stack getcwd classpath events attempts
            { w with err := w.err ++ str "starting server..\n" } (calls ++ [.start_server])
      else main_session fd_soc argv stack getcwd classpath events w calls

/-- The function `main`. -/
def main (ECONNREFUSED : Int) (MAXPATHLEN : Nat) (argv : List (List Nat))
    (stack : List Nat) (getcwd classpath : Option (List Nat)) (events : List Event)
    (attempts : List (Attempt × StartEnv)) (w : World) : Run :=
  main_loop ECONNREFUSED MAXPATHLEN argv stack getcwd classpath events attempts w []

/-! ## Lines and stores of `read_headers` -/

/-- The stream made of the lines `ls`, each ended by `\n`. -/
def lines_block : List (List Nat) → List Nat
  | [] => []
  | l :: ls => l ++ [LF] ++ lines_block ls

/-- The indices `pos` for which the loop of `read_headers` passes
`headers + pos` to `read_header`, which stores the header there: the loop
started at `pos` on `stream`, with `fuel` turns at hand. -/
def read_headers_stores : Nat → List Nat → Nat → Nat → List Nat
  | 0, _, _, _ => []
  | fuel + 1, stream, pos, header_buf_size =>
    match fgets BUFFER_SIZE stream with
    | none => []
    | some (line, rest) =>
      if (skip_cr line).head? = some LF then []
      else
        match read_header line with
        | .ok _ =>
          if pos + 1 ≥ header_buf_size then [pos]
          else pos :: read_headers_stores fuel rest (pos + 1) header_buf_size
        | _ => [pos]

/-- The environment `session` ends with, when the result records one. -/
def Result.final : Result → Option World
  | .returned _ w => some w
  | .exited _ w => some w
  | .fault => none
  | .hang => none
  | .waiting _ w => some w

/-! ## Lemmas: results and constants -/

@[simp] theorem Outcome.bind_ok {α β : Type} (a : α) (f : α → Outcome β) :
    (Outcome.ok a).bind f = f a := rfl

@[simp] theorem Outcome.bind_exit {α β : Type} (s : Int) (m : List Nat) (f : α → Outcome β) :
    (Outcome.exit s m : Outcome α).bind f = .exit s m := rfl

@[simp] theorem Outcome.bind_fault {α β : Type} (f : α → Outcome β) :
    (Outcome.fault : Outcome α).bind f = .fault := rfl

@[simp] theorem Outcome.bind_hang {α β : Type} (f : α → Outcome β) :
    (Outcome.hang : Outcome α).bind f = .hang := rfl

theorem Outcome.bind_eq_ok {α β : Type} {x : Outcome α} {f : α → Outcome β} {b : β}
    (h : x.bind f = .ok b) : ∃ a, x = .ok a ∧ f a = .ok b := by
  cases x with
  | ok a => exact ⟨a, rfl, h⟩
  | exit s m => simp at h
  | fault => simp at h
  | hang => simp at h

theorem key_delim_eq : str " :" = [32, 58] := by decide

theorem value_delim_eq : str " :\n" = [32, 58, 10] := by decide

theorem status_key_eq : HEADER_KEY_STATUS = [83, 116, 97, 116, 117, 115] := by decide

theorem channel_key_eq : HEADER_KEY_CHANNEL = [67, 104, 97, 110, 110, 101, 108] := by decide

theorem size_key_eq : HEADER_KEY_SIZE = [83, 105, 122, 101] := by decide

/-! ## Lemmas: `%d` and `atoi` -/

theorem atoi_digits_utoa_loop (fuel : Nat) :
    ∀ n acc, n < fuel → atoi_digits (utoa_loop fuel n acc) 0 = atoi_digits acc n := by
  induction fuel with
  | zero => intro n acc h; omega
  | succ fuel ih =>
    intro n acc h
    unfold utoa_loop
    by_cases h10 : n < 10
    · have hd : isdigit (48 + n) = true := by simp [isdigit]; omega
      simp [h10, atoi_digits, hd]
    · have hlt : n / 10 < fuel := by omega
      have hd : isdigit (48 + n % 10) = true := by simp [isdigit]; omega
      rw [if_neg h10, ih _ _ hlt]
      simp only [atoi_digits, hd, if_true]
      congr 1
      omega

theorem atoi_digits_utoa (n : Nat) : atoi_digits (utoa n) 0 = n := by
  unfold utoa
  rw [atoi_digits_utoa_loop (n + 1) n [] (by omega)]
  rfl

theorem utoa_loop_head (fuel : Nat) :
    ∀ n acc, n < fuel → ∃ d t, utoa_loop fuel n acc = d :: t ∧ 48 ≤ d ∧ d ≤ 57 := by
  induction fuel with
  | zero => intro n acc h; omega
  | succ fuel ih =>
    intro n acc h
    unfold utoa_loop
    by_cases h10 : n < 10
    · exact ⟨48 + n, acc, by simp [h10], by omega, by omega⟩
    · rw [if_neg h10]
      exact ih _ _ (by omega)

theorem utoa_head (n : Nat) : ∃ d t, utoa n = d :: t ∧ 48 ≤ d ∧ d ≤ 57 :=
  utoa_loop_head (n + 1) n [] (by omega)

/-- Reading back with `atoi` what `%d` prints for an `int` gives the `int`. -/
theorem atoi_itoa (v : List Nat) (s : Int) (hs : INT_MIN ≤ s ∧ s ≤ INT_MAX)
    (hv : string_of v = some (itoa s)) : atoi v = some s := by
  have hc : c_string v = itoa s := by
    unfold string_of at hv
    split at hv
    · exact Option.some.inj hv
    · exact absurd hv (by simp)
  unfold atoi
  rw [hc]
  by_cases hneg : s < 0
  · have hi : itoa s = 45 :: utoa s.natAbs := by simp [itoa, hneg]
    have hval : -((atoi_digits (utoa s.natAbs) 0 : Nat) : Int) = s := by
      rw [atoi_digits_utoa]; omega
    rw [hi]
    simp only [List.dropWhile, isspace]
    simp [hval, hs.1, hs.2]
  · have hi : itoa s = utoa s.natAbs := by simp [itoa, hneg]
    obtain ⟨d, t, hdt, h48, h57⟩ := utoa_head s.natAbs
    have hval : ((atoi_digits (d :: t) 0 : Nat) : Int) = s := by
      rw [← hdt, atoi_digits_utoa]; omega
    have hsp : isspace d = false := by
      simp [isspace]; omega
    rw [hi, hdt]
    simp only [List.dropWhile, hsp]
    have h45 : d ≠ 45 := by omega
    have h43 : d ≠ 43 := by omega
    simp [h45, h43, hval, hs.1, hs.2]

/-! ## Lemmas: what `read_headers` stores -/

theorem strncpy_length (s : List Nat) (n : Nat) : (strncpy s n).length = n := by
  simp only [strncpy, List.length_take, List.length_append, List.length_replicate]
  omega

theorem read_header_key_length {buf : List Nat} {h : header_t}
    (hok : read_header buf = .ok h) : h.key.length = MAX_HEADER_KEY_LEN := by
  unfold read_header at hok
  split at hok
  · exact absurd hok (by simp)
  · split at hok
    · exact absurd hok (by simp)
    · split at hok
      · exact absurd hok (by simp)
      · simp only at hok
        split at hok
        · exact absurd hok (by simp)
        · split at hok
          · exact absurd hok (by simp)
          · cases hok
            exact strncpy_length _ _

theorem read_headers_loop_stored (fuel : Nat) :
    ∀ (stream : List Nat) (hs : List header_t) (b n : Nat) (hs1 : List header_t)
      (rest : List Nat),
      (∀ h ∈ hs, h.key.length = MAX_HEADER_KEY_LEN) →
      read_headers_loop fuel stream hs b = .ok (n, hs1, rest) →
      (n = 0 ∨ n = hs1.length) ∧ ∀ h ∈ hs1, h.key.length = MAX_HEADER_KEY_LEN := by
  induction fuel with
  | zero => intro stream hs b n hs1 rest _ h; simp [read_headers_loop] at h
  | succ fuel ih =>
    intro stream hs b n hs1 rest hinv h
    unfold read_headers_loop at h
    cases hf : fgets BUFFER_SIZE stream with
    | none =>
      rw [hf] at h
      cases h
      exact ⟨Or.inl rfl, hinv⟩
    | some lr =>
      obtain ⟨line, r⟩ := lr
      rw [hf] at h
      simp only at h
      by_cases hblank : (skip_cr line).head? = some LF
      · rw [if_pos hblank] at h
        cases h
        exact ⟨Or.inr rfl, hinv⟩
      · rw [if_neg hblank] at h
        by_cases hroom : b ≤ hs.length
        · rw [if_pos hroom] at h
          exact absurd h (by simp)
        · rw [if_neg hroom] at h
          cases hrd : read_header line with
          | ok hd =>
            rw [hrd] at h
            simp only at h
            by_cases hmany : hs.length + 1 ≥ b
            · rw [if_pos hmany] at h
              exact absurd h (by simp)
            · rw [if_neg hmany] at h
              refine ih _ _ _ _ _ _ ?_ h
              intro x hx
              rcases List.mem_append.mp hx with hx | hx
              · exact hinv x hx
              · have : x = hd := by simpa using hx
                rw [this]
                exact read_header_key_length hrd
          | exit s m => rw [hrd] at h; exact absurd h (by simp)
          | fault => rw [hrd] at h; exact absurd h (by simp)
          | hang => rw [hrd] at h; exact absurd h (by simp)

theorem read_headers_stored {stream : List Nat} {b n : Nat} {hs : List header_t}
    {rest : List Nat} (h : read_headers stream b = .ok (n, hs, rest)) :
    (n = 0 ∨ n = hs.length) ∧ ∀ x ∈ hs, x.key.length = MAX_HEADER_KEY_LEN :=
  read_headers_loop_stored _ _ _ _ _ _ _ (by simp) h

theorem strcmp_eq_defined : ∀ (a k : List Nat), k.length < a.length → ∃ r, strcmp_eq a k = some r
  | [], _, h => by simp at h
  | c :: _, [], _ => ⟨c == 0, rfl⟩
  | c :: a, d :: k, h => by
    unfold strcmp_eq
    by_cases hcd : c = d
    · rw [if_pos hcd]
      exact strcmp_eq_defined a k (by simpa using h)
    · rw [if_neg hcd]
      exact ⟨false, rfl⟩

theorem find_header_defined : ∀ (hs : List header_t) (key : List Nat) (n : Nat),
    n ≤ hs.length → (∀ h ∈ hs, key.length < h.key.length) →
    ∃ r, find_header hs key n = .ok r
  | _, _, 0, _, _ => ⟨none, by simp [find_header]⟩
  | [], _, n + 1, h, _ => by simp at h
  | x :: hs, key, n + 1, h, hk => by
    unfold find_header
    obtain ⟨r, hr⟩ := strcmp_eq_defined x.key key (hk x (by simp))
    rw [hr]
    cases r with
    | true => exact ⟨some x.value, rfl⟩
    | false =>
      exact find_header_defined hs key n (by simpa using h)
        (fun y hy => hk y (List.mem_cons_of_mem _ hy))

/-! ## Lemmas: the loop of `session` -/

theorem session_stdin_keeps {stdin_ready stdin_closed closed1 : Bool} {w w1 : World}
    (h : session_stdin stdin_ready stdin_closed w = .ok (closed1, w1)) :
    w1.out = w.out ∧ w1.err = w.err ∧ w1.sock_in = w.sock_in ∧ w1.read_buf = w.read_buf := by
  unfold session_stdin at h
  split at h
  · obtain ⟨r, hr, hr2⟩ := Outcome.bind_eq_ok h
    cases hr2
    unfold send_to_server at hr
    split at hr
    · exact absurd hr (by simp)
    · cases hr; exact ⟨rfl, rfl, rfl, rfl⟩
    · cases hr; exact ⟨rfl, rfl, rfl, rfl⟩
  · cases h; exact ⟨rfl, rfl, rfl, rfl⟩

theorem session_ready_socket (stdin_ready stdin_closed closed1 : Bool) (events : List Event)
    (w w1 : World) (h : session_stdin stdin_ready stdin_closed w = .ok (closed1, w1)) :
    session (.ready stdin_ready true :: events) stdin_closed w =
      match session_socket w1 with
      | .exit s m => .exited s { w1 with err := w1.err ++ m }
      | .fault => .fault
      | .hang => .hang
      | .ok (some status, w2) => .returned status w2
      | .ok (none, w2) => session events closed1 w2 := by
  rw [session, h]
  simp

/-! ## Lemmas: scanning a line -/

theorem takeWhile_same {p q : Nat → Bool} : ∀ (l : List Nat), (∀ c ∈ l, p c = q c) →
    l.takeWhile p = l.takeWhile q
  | [], _ => rfl
  | c :: l, h => by
    have hc : p c = q c := h c (by simp)
    have ih := takeWhile_same l (fun x hx => h x (List.mem_cons_of_mem _ hx))
    simp [List.takeWhile, hc, ih]

theorem dropWhile_same {p q : Nat → Bool} : ∀ (l : List Nat), (∀ c ∈ l, p c = q c) →
    l.dropWhile p = l.dropWhile q
  | [], _ => rfl
  | c :: l, h => by
    have hc : p c = q c := h c (by simp)
    have ih := dropWhile_same l (fun x hx => h x (List.mem_cons_of_mem _ hx))
    simp [List.dropWhile, hc, ih]

theorem takeWhile_stop {p : Nat → Bool} {d : Nat} (hd : p d = false) :
    ∀ (l t : List Nat), (l ++ d :: t).takeWhile p = l.takeWhile p
  | [], t => by simp [List.takeWhile, hd]
  | c :: l, t => by
    cases hc : p c with
    | true => simp [List.takeWhile, hc, takeWhile_stop hd l t]
    | false => simp [List.takeWhile, hc]

theorem dropWhile_stop {p : Nat → Bool} {d : Nat} (hd : p d = false) :
    ∀ (l t : List Nat), (l ++ d :: t).dropWhile p = l.dropWhile p ++ d :: t
  | [], t => by simp [List.dropWhile, hd]
  | c :: l, t => by
    cases hc : p c with
    | true => simp [List.dropWhile, hc, dropWhile_stop hd l t]
    | false => simp [List.dropWhile, hc]

theorem dropWhile_append_left {p : Nat → Bool} :
    ∀ (l t : List Nat), l.dropWhile p ≠ [] → (l ++ t).dropWhile p = l.dropWhile p ++ t
  | [], _, h => absurd rfl h
  | c :: l, t, h => by
    cases hc : p c with
    | true =>
      have h1 : l.dropWhile p ≠ [] := by simpa [List.dropWhile, hc] using h
      simp [List.dropWhile, hc, dropWhile_append_left l t h1]
    | false => simp [List.dropWhile, hc]

theorem dropWhile_append_right {p : Nat → Bool} :
    ∀ (l t : List Nat), l.dropWhile p = [] → (l ++ t).dropWhile p = t.dropWhile p
  | [], _, _ => rfl
  | c :: l, t, h => by
    cases hc : p c with
    | true =>
      have h1 : l.dropWhile p = [] := by simpa [List.dropWhile, hc] using h
      simp [List.dropWhile, hc, dropWhile_append_right l t h1]
    | false => simp [List.dropWhile, hc] at h

theorem c_string_of_nonzero (l : List Nat) (h : ∀ c ∈ l, c ≠ 0) : c_string l = l := by
  unfold c_string
  rw [List.takeWhile_eq_self_iff]
  intro c hc
  simpa using h c hc

theorem strtok_start (c : Nat) (t delim : List Nat) (hc : c ∉ delim) :
    strtok (c :: t) delim = some ((c :: t).takeWhile (fun x => !decide (x ∈ delim)),
      ((c :: t).dropWhile (fun x => !decide (x ∈ delim))).drop 1) := by
  unfold strtok
  simp [List.dropWhile, hc]

theorem strtok_skip (d : Nat) (s delim : List Nat) (hd : d ∈ delim) :
    strtok (d :: s) delim = strtok s delim := by
  unfold strtok
  simp [List.dropWhile, hd]

/-- The first `strtok` of `read_header` on a line `<key>:<rest>` whose key is
not empty and holds no space: the token is the key, and the text after the
':' is left for the second call. -/
theorem strtok_key (key rest : List Nat) (hne : key ≠ [])
    (hkey : ∀ c ∈ key, c ≠ 32 ∧ c ≠ 58) :
    strtok (key ++ 58 :: rest) (str " :") = some (key, rest) := by
  rw [key_delim_eq]
  obtain ⟨c, t, rfl⟩ := List.exists_cons_of_ne_nil hne
  have hc := hkey c (by simp)
  have hp : (fun x => !decide (x ∈ [32, 58])) 58 = false := by decide
  have hall : ∀ x ∈ c :: t, (fun x => !decide (x ∈ [32, 58])) x = true := by
    intro x hx
    have := hkey x hx
    simp [this.1, this.2]
  unfold strtok
  have hd : ((c :: t) ++ 58 :: rest).dropWhile (fun x => decide (x ∈ [32, 58]))
      = (c :: t) ++ 58 :: rest := by
    simp [List.dropWhile, hc.1, hc.2]
  rw [hd]
  show some (((c :: t) ++ 58 :: rest).takeWhile _, (((c :: t) ++ 58 :: rest).dropWhile _).drop 1)
    = some (c :: t, rest)
  rw [takeWhile_stop hp, dropWhile_stop hp, List.takeWhile_eq_self_iff.mpr hall,
    List.dropWhile_eq_nil_iff.mpr hall]
  rfl

/-- The token the second `strtok` of `read_header` finds in `<rest>\n`: the
first run of bytes of `<rest>` that are neither a space nor a ':'. -/
theorem strtok_value (rest tok after : List Nat) (hrest : ∀ c ∈ rest, c ≠ 10)
    (h : strtok (rest ++ [10]) (str " :\n") = some (tok, after)) :
    tok = (rest.dropWhile (fun c => decide (c ∈ str " :"))).takeWhile
      (fun c => !decide (c ∈ str " :")) := by
  rw [value_delim_eq] at h
  rw [key_delim_eq]
  have hsame : ∀ c ∈ rest, (fun c => decide (c ∈ [32, 58, 10])) c
      = (fun c => decide (c ∈ [32, 58])) c := by
    intro c hc
    simp [hrest c hc]
  have hsame2 : ∀ c ∈ rest.dropWhile (fun c => decide (c ∈ [32, 58])),
      (fun c => !decide (c ∈ [32, 58, 10])) c = (fun c => !decide (c ∈ [32, 58])) c := by
    intro c hc
    have := hrest c ((List.dropWhile_sublist _).subset hc)
    simp [this]
  have hp : (fun x => !decide (x ∈ [32, 58, 10])) 10 = false := by decide
  unfold strtok at h
  by_cases hnil : rest.dropWhile (fun c => decide (c ∈ [32, 58, 10])) = []
  · rw [dropWhile_append_right _ _ hnil] at h
    simp [List.dropWhile] at h
  · rw [dropWhile_append_left _ _ hnil] at h
    obtain ⟨c, t, hct⟩ := List.exists_cons_of_ne_nil hnil
    rw [hct] at h
    simp only [List.cons_append, Option.some.injEq, Prod.mk.injEq] at h
    rw [← h.1, ← List.cons_append, takeWhile_stop hp, ← hct, dropWhile_same rest hsame]
    exact takeWhile_same _ hsame2

theorem strncpy_of_le (s : List Nat) (n : Nat) (h : s.length ≤ n) :
    strncpy s n = s ++ List.replicate (n - s.length) 0 := by
  unfold strncpy
  apply List.take_of_length_le
  simp only [List.length_append, List.length_replicate]
  omega

theorem c_string_strncpy (s : List Nat) (n : Nat) (h : s.length ≤ n) (hs : ∀ c ∈ s, c ≠ 0) :
    c_string (strncpy s n) = s := by
  rw [strncpy_of_le s n h]
  unfold c_string
  rw [List.takeWhile_append_of_pos (by intro c hc; simpa using hs c hc)]
  cases hk : n - s.length with
  | zero => simp
  | succ k => simp [List.replicate_succ, List.takeWhile]

theorem string_of_strncpy (s : List Nat) (n : Nat) (h : s.length < n) (hs : ∀ c ∈ s, c ≠ 0) :
    string_of (strncpy s n) = some s := by
  unfold string_of
  have hmem : 0 ∈ strncpy s n := by
    rw [strncpy_of_le s n (by omega)]
    apply List.mem_append_right
    rw [List.mem_replicate]
    exact ⟨by omega, rfl⟩
  rw [if_pos hmem, c_string_strncpy s n (by omega) hs]

/-- What `read_header` does with a line `<key>:<rest>\n` whose key is not
empty and holds no space, in terms of the value token `tok`. -/
theorem read_header_line (key rest : List Nat) (hne : key ≠ [])
    (hkey : ∀ c ∈ key, c ≠ 0 ∧ c ≠ 32 ∧ c ≠ 58) (hrest : ∀ c ∈ rest, c ≠ 0 ∧ c ≠ 10)
    (h : header_t) (hok : read_header (key ++ 58 :: rest ++ [10]) = .ok h) :
    key.length ≤ MAX_HEADER_KEY_LEN ∧
    (((rest.dropWhile (fun c => decide (c ∈ str " :"))).takeWhile
        (fun c => !decide (c ∈ str " :"))).dropWhile isspace).length ≤ MAX_HEADER_VALUE_LEN ∧
    h = header_of key (((rest.dropWhile (fun c => decide (c ∈ str " :"))).takeWhile
        (fun c => !decide (c ∈ str " :"))).dropWhile isspace) := by
  have hnz : ∀ c ∈ key ++ 58 :: rest ++ [10], c ≠ 0 := by
    intro c hc
    simp only [List.mem_append, List.mem_cons, List.mem_singleton, List.not_mem_nil,
      or_false] at hc
    rcases hc with (hc | hc | hc) | hc
    · exact (hkey c hc).1
    · omega
    · exact (hrest c hc).1
    · omega
  unfold read_header at hok
  rw [c_string_of_nonzero _ hnz, List.append_assoc, List.cons_append,
    strtok_key key (rest ++ [10]) hne (fun c hc => (hkey c hc).2)] at hok
  simp only at hok
  by_cases hlen : key.length > MAX_HEADER_KEY_LEN
  · rw [if_pos hlen] at hok
    exact absurd hok (by simp)
  · rw [if_neg hlen] at hok
    cases hs : strtok (rest ++ [10]) (str " :\n") with
    | none => rw [hs] at hok; exact absurd hok (by simp)
    | some ta =>
      obtain ⟨tok, after⟩ := ta
      rw [hs] at hok
      have htok := strtok_value rest tok after (fun c hc => (hrest c hc).2) hs
      simp only at hok
      rw [htok] at hok
      split at hok
      · exact absurd hok (by simp)
      · split at hok
        · exact absurd hok (by simp)
        · rename_i hv
          refine ⟨by omega, by omega, ?_⟩
          cases hok
          rfl

/-! ## Lemmas: reading back an encoded block -/

theorem fgets_line_whole : ∀ (line : List Nat) (n : Nat) (rest : List Nat),
    (∀ c ∈ line, c ≠ 10) → line.length < n →
    fgets_line n (line ++ 10 :: rest) = (line ++ [10], rest)
  | [], n + 1, rest, _, _ => by simp [fgets_line]
  | [], 0, _, _, h => by simp at h
  | _ :: _, 0, _, _, h => by simp at h
  | c :: line, n + 1, rest, hc, h => by
    have hne : c ≠ 10 := hc c (by simp)
    have ih := fgets_line_whole line n rest (fun x hx => hc x (List.mem_cons_of_mem _ hx))
      (by simpa using h)
    simp [fgets_line, hne, ih]

theorem fgets_whole (line rest : List Nat) (hc : ∀ c ∈ line, c ≠ 10)
    (h : line.length + 1 < BUFFER_SIZE) :
    fgets BUFFER_SIZE (line ++ 10 :: rest) = some (line ++ [10], rest) := by
  have := fgets_line_whole line (BUFFER_SIZE - 1) rest hc (by omega)
  cases line with
  | nil => simpa [fgets] using this
  | cons c t => simpa [fgets] using this

theorem read_header_plain (k v : List Nat) (h : plain_header (k, v)) :
    read_header (k ++ 58 :: 32 :: v ++ [10]) = .ok (header_of k v) := by
  obtain ⟨hk0, hklen, hk, hv0, hv, hsp, hline⟩ := h
  simp only at hk0 hklen hk hv0 hv hsp hline
  have hnz : ∀ c ∈ k ++ 58 :: 32 :: v ++ [10], c ≠ 0 := by
    intro c hc
    simp only [List.mem_append, List.mem_cons, List.mem_singleton, List.not_mem_nil,
      or_false] at hc
    rcases hc with (hc | hc | hc | hc) | hc
    · exact (hk c hc).1
    · omega
    · omega
    · exact (hv c hc).1
    · omega
  obtain ⟨c, t, rfl⟩ := List.exists_cons_of_ne_nil hv0
  have hc := hv c (by simp)
  have hp : (fun x => !decide (x ∈ [32, 58, 10])) 10 = false := by decide
  have hall : ∀ x ∈ c :: t, (fun x => !decide (x ∈ [32, 58, 10])) x = true := by
    intro x hx
    have := hv x hx
    simp [this.2.1, this.2.2.1, this.2.2.2]
  have hsecond : strtok (32 :: (c :: t) ++ [10]) (str " :\n") = some (c :: t, []) := by
    rw [value_delim_eq, List.cons_append, strtok_skip 32 _ _ (by decide), List.cons_append,
      strtok_start c _ _ (by simp [hc.2.1, hc.2.2.1, hc.2.2.2]), ← List.cons_append,
      takeWhile_stop hp, dropWhile_stop hp, List.takeWhile_eq_self_iff.mpr hall,
      List.dropWhile_eq_nil_iff.mpr hall]
    rfl
  unfold read_header
  rw [c_string_of_nonzero _ hnz, List.append_assoc, List.cons_append,
    strtok_key k (32 :: (c :: t) ++ [10]) hk0 (fun x hx => ⟨(hk x hx).2.1, (hk x hx).2.2.1⟩)]
  simp only
  rw [if_neg (by omega), hsecond]
  simp only
  rw [hsp]
  have hhead : ¬ ((c :: t).head? = some LF ∨ (c :: t).head? = none) := by
    simp [hc.2.2.2]
  rw [if_neg hhead,
    if_neg (by simp only [List.length_cons, BUFFER_SIZE, MAX_HEADER_VALUE_LEN] at hline ⊢; omega)]
  rfl

theorem skip_cr_head (c d : Nat) (t : List Nat) (hc : c ≠ 10) (hd : d ≠ 10) :
    (skip_cr (c :: d :: t)).head? ≠ some LF := by
  unfold skip_cr
  by_cases h : (c :: d :: t).head? = some CR
  · rw [if_pos h]
    simp [hd]
  · rw [if_neg h]
    simp [hc]

theorem read_headers_loop_encode : ∀ (hs : List (List Nat × List Nat)) (acc : List header_t)
    (fuel : Nat) (rest : List Nat) (b : Nat),
    (∀ kv ∈ hs, plain_header kv) → acc.length + hs.length < b →
    (encode_headers hs ++ rest).length < fuel →
    read_headers_loop fuel (encode_headers hs ++ rest) acc b
      = .ok (acc.length + hs.length, acc ++ hs.map (fun kv => header_of kv.1 kv.2), rest)
  | [], acc, fuel, rest, b, _, _, hf => by
    cases fuel with
    | zero => simp at hf
    | succ fuel =>
      have hfg : fgets BUFFER_SIZE ([] ++ 10 :: rest) = some ([] ++ [10], rest) :=
        fgets_whole [] rest (by simp) (by simp)
      have henc : encode_headers [] ++ rest = [] ++ 10 :: rest := by
        show str "\n" ++ rest = _
        have : str "\n" = [10] := by decide
        rw [this]; rfl
      rw [henc]
      unfold read_headers_loop
      rw [hfg]
      simp [skip_cr]
  | kv :: hs, acc, fuel, rest, b, hall, hb, hf => by
    obtain ⟨k, v⟩ := kv
    have hp : plain_header (k, v) := hall (k, v) (by simp)
    have hp2 := hp
    obtain ⟨hk0, hklen, hk, hv0, hv, hsp, hline⟩ := hp2
    simp only at hk0 hklen hk hv0 hv hsp hline
    have henc : encode_headers ((k, v) :: hs) ++ rest
        = (k ++ 58 :: 32 :: v) ++ 10 :: (encode_headers hs ++ rest) := by
      show (k ++ str ": " ++ v ++ str "\n" ++ encode_headers hs) ++ rest = _
      have h1 : str ": " = [58, 32] := by decide
      have h2 : str "\n" = [10] := by decide
      rw [h1, h2]
      simp
    have hlinec : ∀ c ∈ k ++ 58 :: 32 :: v, c ≠ 10 := by
      intro c hc
      simp only [List.mem_append, List.mem_cons] at hc
      rcases hc with hc | hc | hc | hc
      · exact (hk c hc).2.2.2
      · omega
      · omega
      · exact (hv c hc).2.2.2
    have hfg := fgets_whole (k ++ 58 :: 32 :: v) (encode_headers hs ++ rest) hlinec
      (by simp only [List.length_append, List.length_cons]; omega)
    rw [henc] at hf ⊢
    cases fuel with
    | zero => simp at hf
    | succ fuel =>
      unfold read_headers_loop
      rw [hfg]
      simp only
      have hblank : ¬ (skip_cr ((k ++ 58 :: 32 :: v) ++ [10])).head? = some LF := by
        obtain ⟨c, t, rfl⟩ := List.exists_cons_of_ne_nil hk0
        have hc := (hk c (by simp)).2.2.2
        cases t with
        | nil => exact skip_cr_head c 58 _ hc (by omega)
        | cons d t => exact skip_cr_head c d _ hc ((hk d (by simp)).2.2.2)
      rw [if_neg hblank, if_neg (by omega)]
      have hrd : read_header ((k ++ 58 :: 32 :: v) ++ [10]) = .ok (header_of k v) := by
        have := read_header_plain k v hp
        simpa using this
      rw [hrd]
      simp only
      rw [if_neg (by simp only [List.length_cons] at hb; omega)]
      have ih := read_headers_loop_encode hs (acc ++ [header_of k v]) fuel rest b
        (fun x hx => hall x (List.mem_cons_of_mem _ hx))
        (by simp only [List.length_append, List.length_cons, List.length_nil] at hb ⊢; omega)
        (by simp only [List.length_append, List.length_cons] at hf ⊢; omega)
      rw [ih]
      simp only [List.length_append, List.length_cons, List.length_nil, List.map_cons,
        List.append_assoc, List.singleton_append]
      congr 2
      omega

/-! ## Lemmas: building the request in `read_buf` -/

theorem store_length {mem bs m : List Nat} {i : Nat} (h : store mem i bs = .ok m) :
    m.length = mem.length ∧ i + bs.length ≤ mem.length := by
  unfold store at h
  split at h
  · rename_i hle
    cases h
    refine ⟨?_, hle⟩
    simp only [List.length_append, List.length_take, List.length_drop]
    omega
  · exact absurd h (by simp)

theorem strcat_length {mem s m : List Nat} {p : Nat} (h : strcat mem p s = .ok m) :
    m.length = mem.length ∧ s.length < mem.length := by
  unfold strcat at h
  split at h
  · exact absurd h (by simp)
  · have := store_length h
    simp only [List.length_append, List.length_cons, List.length_nil] at this
    exact ⟨this.1, by omega⟩

theorem send_header_args_length : ∀ (args : List (List Nat)) (mem : List Nat) (p : Nat)
    (r : List Nat × Nat), send_header_args args mem p = .ok r →
    r.1.length = mem.length ∧ ∀ a ∈ args, a.length < mem.length
  | [], mem, p, r, h => by
    simp only [send_header_args] at h
    cases h
    exact ⟨rfl, by simp⟩
  | a :: args, mem, p, r, h => by
    unfold send_header_args at h
    obtain ⟨m1, h1, h⟩ := Outcome.bind_eq_ok h
    obtain ⟨m2, h2, h⟩ := Outcome.bind_eq_ok h
    obtain ⟨m3, h3, h⟩ := Outcome.bind_eq_ok h
    obtain ⟨m4, h4, h⟩ := Outcome.bind_eq_ok h
    have l1 := (strcat_length h1).1
    have l2 := (strcat_length h2).1
    have l3 := strcat_length h3
    have l4 := (strcat_length h4).1
    cases hk : strlen_at m4 p with
    | none => rw [hk] at h; exact absurd h (by simp)
    | some k =>
      rw [hk] at h
      have ih := send_header_args_length args m4 (p + k) r h
      refine ⟨by omega, ?_⟩
      intro x hx
      rcases List.mem_cons.mp hx with hx | hx
      · rw [hx]; omega
      · have := ih.2 x hx; omega

theorem store_append (W X bs : List Nat) (p : Nat) (hp : p = W.length)
    (h : bs.length ≤ X.length) :
    store (W ++ X) p bs = .ok (W ++ bs ++ X.drop bs.length) := by
  subst hp
  unfold store
  rw [if_pos (by simp only [List.length_append]; omega)]
  simp [List.take_append_eq_append_take, List.drop_append_eq_append_drop]

theorem strlen_at_append (W s T : List Nat) (p : Nat) (hp : p = W.length)
    (hs : ∀ c ∈ s, c ≠ 0) :
    strlen_at (W ++ s ++ 0 :: T) p = some s.length := by
  subst hp
  unfold strlen_at
  have hd : (W ++ s ++ 0 :: T).drop W.length = s ++ 0 :: T := by
    rw [List.append_assoc, List.drop_left]
  rw [hd, if_pos (by simp)]
  unfold c_string
  rw [takeWhile_stop (by simp)]
  rw [List.takeWhile_eq_self_iff.mpr (by intro c hc; simpa using hs c hc)]

theorem strcat_append (W s T s2 : List Nat) (p : Nat) (hp : p = W.length)
    (hs : ∀ c ∈ s, c ≠ 0) (h : s2.length ≤ T.length) :
    strcat (W ++ s ++ 0 :: T) p s2 = .ok (W ++ (s ++ s2) ++ 0 :: T.drop s2.length) := by
  unfold strcat
  rw [strlen_at_append W s T p hp hs]
  simp only
  have := store_append (W ++ s) (0 :: T) (s2 ++ [0]) (p + s.length)
    (by simp only [List.length_append]; omega)
    (by simp only [List.length_append, List.length_cons, List.length_nil]; omega)
  rw [this]
  simp

theorem arg_key_eq : HEADER_KEY_ARG = [65, 114, 103] := by decide

theorem sep_eq : str ": " = [58, 32] := by decide

theorem newline_eq : str "\n" = [10] := by decide

theorem arg_lines_cons (a : List Nat) (args : List (List Nat)) :
    arg_lines (a :: args) = [65, 114, 103, 58, 32] ++ a ++ [10] ++ arg_lines args := by
  have h : str "Arg: " = [65, 114, 103, 58, 32] := by decide
  rw [arg_lines, h, newline_eq]

theorem send_header_args_append : ∀ (args : List (List Nat)) (W T : List Nat) (p : Nat),
    p = W.length → (∀ a ∈ args, ∀ c ∈ a, c ≠ 0) → (arg_lines args).length ≤ T.length →
    send_header_args args (W ++ 0 :: T) p
      = .ok (W ++ arg_lines args ++ 0 :: T.drop (arg_lines args).length,
          p + (arg_lines args).length)
  | [], W, T, p, _, _, _ => by simp [send_header_args, arg_lines]
  | a :: args, W, T, p, hp, hnz, hlen => by
    have ha : ∀ c ∈ a, c ≠ 0 := hnz a (by simp)
    rw [arg_lines_cons] at hlen ⊢
    simp only [List.length_append, List.length_cons, List.length_nil] at hlen
    unfold send_header_args
    rw [arg_key_eq, sep_eq, newline_eq]
    have e0 : W ++ 0 :: T = W ++ [] ++ 0 :: T := by simp
    rw [e0, strcat_append W [] T [65, 114, 103] p hp (by simp) (by simp; omega)]
    simp only [Outcome.bind_ok]
    rw [strcat_append W _ _ [58, 32] p hp (by decide) (by simp; omega)]
    simp only [Outcome.bind_ok]
    rw [strcat_append W _ _ a p hp (by decide) (by simp; omega)]
    simp only [Outcome.bind_ok]
    rw [strcat_append W _ _ [10] p hp
      (by
        intro c hc
        simp only [List.nil_append, List.cons_append, List.mem_cons] at hc
        rcases hc with hc | hc | hc | hc | hc | hc
        · omega
        · omega
        · omega
        · omega
        · omega
        · exact ha c hc)
      (by simp; omega)]
    simp only [Outcome.bind_ok]
    rw [strlen_at_append W _ _ p hp
      (by
        intro c hc
        simp only [List.nil_append, List.cons_append, List.mem_cons, List.mem_append,
          List.mem_singleton, List.not_mem_nil, or_false] at hc
        rcases hc with hc | hc | hc | hc | hc | hc | hc
        · omega
        · omega
        · omega
        · omega
        · omega
        · exact ha c hc
        · omega)]
    simp only
    have ih := send_header_args_append args (W ++ ([65, 114, 103, 58, 32] ++ a ++ [10]))
      (T.drop ([65, 114, 103, 58, 32] ++ a ++ [10]).length)
      (p + ([65, 114, 103, 58, 32] ++ a ++ [10]).length)
      (by simp only [List.length_append]; omega)
      (fun x hx => hnz x (List.mem_cons_of_mem _ hx))
      (by simp only [List.length_append, List.length_cons, List.length_nil, List.length_drop]
          omega)
    have e1 : W ++ ([] ++ [65, 114, 103] ++ [58, 32] ++ a ++ [10]) ++
        0 :: List.drop [10].length (List.drop a.length
          (List.drop [58, 32].length (List.drop [65, 114, 103].length T)))
        = (W ++ ([65, 114, 103, 58, 32] ++ a ++ [10])) ++
          0 :: T.drop ([65, 114, 103, 58, 32] ++ a ++ [10]).length := by
      simp only [List.drop_drop, List.length_append, List.length_cons, List.length_nil,
        List.nil_append, List.cons_append, List.append_assoc]
      repeat (first | rfl | omega | congr 1)
    have e2 : ([] ++ [65, 114, 103] ++ [58, 32] ++ a ++ [10]).length
        = ([65, 114, 103, 58, 32] ++ a ++ [10]).length := by
      simp
    rw [e1, e2, ih]
    simp only [List.length_append, List.length_cons, List.length_nil, List.drop_drop,
      List.append_assoc, Outcome.ok.injEq, Prod.mk.injEq]
    constructor
    · repeat (first | rfl | omega | congr 1)
    · omega

theorem cwd_key_eq : HEADER_KEY_CURRENT_WORKING_DIR = [67, 119, 100] := by decide

theorem cp_key_eq : HEADER_KEY_CP = [67, 112] := by decide

theorem cp_line_some (cp : List Nat) (h : cp ≠ []) :
    cp_line (some cp) = [67, 112, 58, 32] ++ cp ++ [10] := by
  have e : str "Cp: " = [67, 112, 58, 32] := by decide
  rw [cp_line, if_pos h, e, newline_eq]

theorem request_eq (cwd : List Nat) (argv : List (List Nat)) (cp : Option (List Nat)) :
    request cwd argv cp
      = [67, 119, 100, 58, 32] ++ cwd ++ [10] ++ arg_lines (argv.drop 1) ++ cp_line cp ++ [10] := by
  have e : str "Cwd: " = [67, 119, 100, 58, 32] := by decide
  rw [request, e, newline_eq]

/-- The `Cwd` line in a buffer of `BUFFER_SIZE` bytes that has room for it. -/
theorem send_header_cwd_append (stack cwd : List Nat) (hstack : stack.length = BUFFER_SIZE)
    (hcwd : ∀ c ∈ cwd, c ≠ 0) (hfit : cwd.length + 6 ≤ BUFFER_SIZE) :
    send_header_cwd stack (some cwd)
      = .ok ([67, 119, 100, 58, 32] ++ cwd ++ [10] ++ stack.drop (cwd.length + 6),
          cwd.length + 6) := by
  unfold send_header_cwd
  have e5 : (HEADER_KEY_CURRENT_WORKING_DIR ++ str ": ").length = 5 := by decide
  have ek : HEADER_KEY_CURRENT_WORKING_DIR ++ str ": " ++ [0] = [67, 119, 100, 58, 32, 0] := by
    decide
  rw [e5, ek]
  have s0 := store_append [] stack [67, 119, 100, 58, 32, 0] 0 rfl
    (by simp only [List.length_cons, List.length_nil]; omega)
  rw [List.nil_append] at s0
  rw [s0]
  simp only [Outcome.bind_ok]
  have s1 := store_append [67, 119, 100, 58, 32] (0 :: stack.drop 6) (cwd ++ [0]) 5 rfl
    (by simp only [List.length_append, List.length_cons, List.length_nil, List.length_drop]
        omega)
  have e1 : [] ++ [67, 119, 100, 58, 32, 0] ++ List.drop [67, 119, 100, 58, 32, 0].length stack
      = [67, 119, 100, 58, 32] ++ 0 :: stack.drop 6 := by
    simp
  rw [e1, s1]
  simp only [Outcome.bind_ok]
  have e2 : [67, 119, 100, 58, 32] ++ (cwd ++ [0]) ++ List.drop (cwd ++ [0]).length
        (0 :: stack.drop 6)
      = [67, 119, 100, 58, 32] ++ cwd ++ 0 :: stack.drop (cwd.length + 6) := by
    simp only [List.length_append, List.length_cons, List.length_nil, List.drop_succ_cons,
      List.drop_drop, List.append_assoc, List.singleton_append, Nat.zero_add]
    repeat (first | rfl | omega | congr 1)
  rw [e2, strlen_at_append [67, 119, 100, 58, 32] cwd _ 5 rfl hcwd]
  simp only
  have s2 := store_append ([67, 119, 100, 58, 32] ++ cwd) (0 :: stack.drop (cwd.length + 6))
    [10] (5 + cwd.length)
    (by simp only [List.length_append, List.length_cons, List.length_nil])
    (by simp)
  rw [s2]
  simp only [Outcome.bind_ok, List.length_cons, List.length_nil,
    List.drop_succ_cons, List.drop_zero, Outcome.ok.injEq, Prod.mk.injEq]
  exact ⟨trivial, by omega⟩

theorem send_header_cp_append (cp : Option (List Nat)) (W X : List Nat) (p : Nat)
    (hp : p = W.length) (hfit : (cp_line cp).length + 1 ≤ X.length) :
    ∃ X2, send_header_cp cp (W ++ X) p = .ok (W ++ cp_line cp ++ X2, p + (cp_line cp).length)
      ∧ X2.length + (cp_line cp).length = X.length := by
  cases cp with
  | none => exact ⟨X, by simp [send_header_cp, cp_line], by simp [cp_line]⟩
  | some c =>
    by_cases hc : c = []
    · subst hc
      exact ⟨X, by simp [send_header_cp, cp_line], by simp [cp_line]⟩
    · rw [cp_line_some c hc] at hfit ⊢
      have e : HEADER_KEY_CP ++ str ": " ++ c ++ str "\n" = [67, 112, 58, 32] ++ c ++ [10] := by
        rw [cp_key_eq, sep_eq, newline_eq]; rfl
      simp only [List.length_append, List.length_cons, List.length_nil] at hfit
      refine ⟨0 :: X.drop (([67, 112, 58, 32] ++ c ++ [10]).length + 1), ?_, ?_⟩
      · unfold send_header_cp
        simp only [ne_eq, hc, not_false_eq_true, if_true]
        rw [e, store_append W X _ p hp
          (by simp only [List.length_append, List.length_cons, List.length_nil]; omega)]
        simp only [Outcome.bind_ok, Outcome.ok.injEq, Prod.mk.injEq, and_true]
        simp only [List.length_append, List.length_cons, List.length_nil, List.append_assoc,
          List.cons_append, List.nil_append, List.append_cancel_left_eq, List.cons.injEq,
          true_and]
      · simp only [List.length_append, List.length_cons, List.length_nil, List.length_drop]
        omega

theorem send_header_end_append (W X : List Nat) (p : Nat) (hp : p = W.length)
    (hX : 1 ≤ X.length) (hW : W.length + 1 ≤ BUFFER_SIZE) :
    send_header_end (W ++ X) p = .ok (W ++ [10]) := by
  unfold send_header_end
  rw [store_append W X [LF] p hp (by simpa using hX)]
  simp only [Outcome.bind_ok]
  rw [if_neg (by omega)]
  subst hp
  simp [List.take_append_eq_append_take]

theorem send_header_args_fits (args : List (List Nat)) (W T1 : List Nat) (p : Nat)
    (hp : p = W.length) (hnz : ∀ a ∈ args, ∀ c ∈ a, c ≠ 0)
    (hlen : (arg_lines args).length + 1 ≤ T1.length)
    (hclean : args = [] ∨ T1.head? = some 0) :
    ∃ X, send_header_args args (W ++ T1) p
        = .ok (W ++ arg_lines args ++ X, p + (arg_lines args).length)
      ∧ X.length + (arg_lines args).length = T1.length := by
  rcases hclean with h | h
  · subst h
    exact ⟨T1, by simp [send_header_args, arg_lines], by simp [arg_lines]⟩
  · cases T1 with
    | nil => simp at h
    | cons d T =>
      have hd : d = 0 := by simpa using h
      subst hd
      simp only [List.length_cons] at hlen
      refine ⟨0 :: T.drop (arg_lines args).length,
        send_header_args_append args W T p hp hnz (by omega), ?_⟩
      simp only [List.length_cons, List.length_drop]
      omega

theorem send_header_cwd_length {stack cwd : List Nat} {r : List Nat × Nat}
    (h : send_header_cwd stack (some cwd) = .ok r) :
    r.1.length = stack.length ∧ cwd.length < stack.length := by
  unfold send_header_cwd at h
  obtain ⟨m0, h0, h⟩ := Outcome.bind_eq_ok h
  simp only at h
  obtain ⟨m1, h1, h⟩ := Outcome.bind_eq_ok h
  have l0 := store_length h0
  have l1 := store_length h1
  simp only [List.length_append, List.length_cons, List.length_nil] at l1
  split at h
  · exact absurd h (by simp)
  · obtain ⟨m2, h2, h⟩ := Outcome.bind_eq_ok h
    have l2 := store_length h2
    cases h
    exact ⟨by simp only; omega, by omega⟩

theorem send_header_cp_length {cp : Option (List Nat)} {mem : List Nat} {p : Nat}
    {r : List Nat × Nat} (h : send_header_cp cp mem p = .ok r) :
    r.1.length = mem.length ∧ ∀ c, cp = some c → c ≠ [] → c.length < mem.length := by
  unfold send_header_cp at h
  split at h
  · cases h
    exact ⟨rfl, by simp⟩
  · rename_i c
    split at h
    · obtain ⟨m, hm, h⟩ := Outcome.bind_eq_ok h
      have l := store_length hm
      simp only [List.length_append, List.length_cons, List.length_nil] at l
      cases h
      refine ⟨l.1, ?_⟩
      intro c2 hc2 _
      cases hc2
      omega
    · rename_i hc
      cases h
      refine ⟨rfl, ?_⟩
      intro c2 hc2 hne
      cases hc2
      exact absurd hne hc

/-- A request that fits in `read_buf` is sent as the spec encodes it, when
there are no arguments or the byte of `read_buf` that follows the `Cwd`
line is NUL. -/
theorem send_header_request (stack cwd : List Nat) (argv : List (List Nat))
    (cp : Option (List Nat)) (hstack : stack.length = BUFFER_SIZE)
    (hcwd : ∀ c ∈ cwd, c ≠ 0) (hargs : ∀ a ∈ argv.drop 1, ∀ c ∈ a, c ≠ 0)
    (hclean : argv.drop 1 = [] ∨ (stack.drop (cwd.length + 6)).head? = some 0)
    (hsize : (request cwd argv cp).length ≤ BUFFER_SIZE) :
    send_header stack (some cwd) argv cp = .ok (request cwd argv cp) := by
  rw [request_eq] at hsize ⊢
  simp only [List.length_append, List.length_cons, List.length_nil] at hsize
  unfold send_header
  rw [send_header_cwd_append stack cwd hstack hcwd (by omega)]
  simp only [Outcome.bind_ok]
  obtain ⟨X1, h1, l1⟩ := send_header_args_fits (argv.drop 1)
    ([67, 119, 100, 58, 32] ++ cwd ++ [10]) (stack.drop (cwd.length + 6)) (cwd.length + 6)
    (by simp only [List.length_append, List.length_cons, List.length_nil]; omega)
    hargs (by simp only [List.length_drop]; omega) hclean
  rw [h1]
  simp only [Outcome.bind_ok]
  simp only [List.length_drop] at l1
  obtain ⟨X2, h2, l2⟩ := send_header_cp_append cp
    ([67, 119, 100, 58, 32] ++ cwd ++ [10] ++ arg_lines (argv.drop 1)) X1
    (cwd.length + 6 + (arg_lines (argv.drop 1)).length)
    (by simp only [List.length_append, List.length_cons, List.length_nil]; omega)
    (by omega)
  rw [h2]
  simp only [Outcome.bind_ok]
  exact send_header_end_append _ X2 _
    (by simp only [List.length_append, List.length_cons, List.length_nil]; omega)
    (by omega)
    (by simp only [List.length_append, List.length_cons, List.length_nil]; omega)

/-- A request that `send_header` sends has no value of `BUFFER_SIZE` bytes or
more. -/
theorem send_header_values_short (stack cwd : List Nat) (argv : List (List Nat))
    (cp : Option (List Nat)) (out : List Nat) (hstack : stack.length = BUFFER_SIZE)
    (h : send_header stack (some cwd) argv cp = .ok out) :
    cwd.length < BUFFER_SIZE ∧ (∀ a ∈ argv.drop 1, a.length < BUFFER_SIZE)
      ∧ ∀ c, cp = some c → c ≠ [] → c.length < BUFFER_SIZE := by
  unfold send_header at h
  obtain ⟨r0, h0, h⟩ := Outcome.bind_eq_ok h
  obtain ⟨r1, h1, h⟩ := Outcome.bind_eq_ok h
  obtain ⟨r2, h2, _⟩ := Outcome.bind_eq_ok h
  have l0 := send_header_cwd_length h0
  have l1 := send_header_args_length _ _ _ _ h1
  have l2 := send_header_cp_length h2
  refine ⟨by omega, ?_, ?_⟩
  · intro a ha
    have := l1.2 a ha
    omega
  · intro c hc hne
    have := l2.2 c hc hne
    omega

/-! ## Lemmas: the doubling loop of `split_socket_output` -/

/-- From `read_buf_size = 0` the doubling loop never ends, whatever the
number of turns it is given. -/
theorem grow_zero (fuel : Nat) (size : Int) (h : 0 < size) : grow fuel 0 size = .hang := by
  induction fuel with
  | zero => rfl
  | succ fuel ih =>
    unfold grow
    rw [if_pos h]
    simpa using ih

/-- From a positive `read_buf_size` the doubling loop ends, or overflows,
within as many turns as `INT_MAX` has bits. -/
theorem grow_positive (fuel : Nat) : ∀ (n size : Int), 0 < n → INT_MAX < n * 2 ^ fuel →
    grow (fuel + 1) n size ≠ .hang := by
  induction fuel with
  | zero =>
    intro n size _ hbig
    unfold grow
    split
    · rw [if_neg (by simp only [INT_MAX, INT_MIN, pow_zero, mul_one] at hbig ⊢; omega)]
      simp
    · simp
  | succ fuel ih =>
    intro n size hn hbig
    unfold grow
    split
    · split
      · exact ih (n * 2) size (by omega) (by rw [pow_succ] at hbig; linarith)
      · simp
    · simp

/-! ## Lemmas: the size check of `send_header` -/

theorem Outcome.bind_eq_exit {α β : Type} {x : Outcome α} {f : α → Outcome β} {s : Int}
    {m : List Nat} (h : x.bind f = .exit s m) :
    x = .exit s m ∨ ∃ a, x = .ok a ∧ f a = .exit s m := by
  cases x with
  | ok a => exact Or.inr ⟨a, rfl, h⟩
  | exit s1 m1 =>
    simp only [Outcome.bind_exit, Outcome.exit.injEq] at h
    exact Or.inl (by rw [h.1, h.2])
  | fault => simp at h
  | hang => simp at h

theorem store_ne_exit (mem bs : List Nat) (i : Nat) (s : Int) (m : List Nat) :
    store mem i bs ≠ .exit s m := by
  unfold store
  split <;> simp

theorem strcat_ne_exit (mem bs : List Nat) (p : Nat) (s : Int) (m : List Nat) :
    strcat mem p bs ≠ .exit s m := by
  unfold strcat
  split
  · simp
  · exact store_ne_exit _ _ _ _ _

theorem send_header_args_ne_exit : ∀ (args : List (List Nat)) (mem : List Nat) (p : Nat)
    (s : Int) (m : List Nat), send_header_args args mem p ≠ .exit s m
  | [], mem, p, s, m => by simp [send_header_args]
  | a :: args, mem, p, s, m => by
    intro h
    unfold send_header_args at h
    rcases Outcome.bind_eq_exit h with h | ⟨m1, _, h⟩
    · exact strcat_ne_exit _ _ _ _ _ h
    rcases Outcome.bind_eq_exit h with h | ⟨m2, _, h⟩
    · exact strcat_ne_exit _ _ _ _ _ h
    rcases Outcome.bind_eq_exit h with h | ⟨m3, _, h⟩
    · exact strcat_ne_exit _ _ _ _ _ h
    rcases Outcome.bind_eq_exit h with h | ⟨m4, _, h⟩
    · exact strcat_ne_exit _ _ _ _ _ h
    split at h
    · simp at h
    · exact send_header_args_ne_exit args _ _ s m h

/-- The size check of `send_header` never fires: the only `exit` the
function reaches without a store outside `read_buf` is the one after a
failed `getcwd`. Where the request is too long for `read_buf`, a store past
the end of the array comes first. -/
theorem send_header_exit_is_getcwd (stack : List Nat) (getcwd : Option (List Nat))
    (argv : List (List Nat)) (cp : Option (List Nat)) (s : Int) (m : List Nat)
    (hstack : stack.length = BUFFER_SIZE)
    (h : send_header stack getcwd argv cp = .exit s m) :
    getcwd = none ∧ m = str "getcwd" := by
  cases getcwd with
  | none =>
    refine ⟨rfl, ?_⟩
    unfold send_header send_header_cwd at h
    rcases Outcome.bind_eq_exit h with h | ⟨r0, h0, _⟩
    · rcases Outcome.bind_eq_exit h with h | ⟨m0, _, h⟩
      · exact absurd h (store_ne_exit _ _ _ _ _)
      · simp only [Outcome.exit.injEq] at h
        exact h.2.symm
    · obtain ⟨_, _, h0⟩ := Outcome.bind_eq_ok h0
      simp at h0
  | some cwd =>
    unfold send_header at h
    rcases Outcome.bind_eq_exit h with h | ⟨r0, h0, h⟩
    · unfold send_header_cwd at h
      rcases Outcome.bind_eq_exit h with h | ⟨m0, _, h⟩
      · exact absurd h (store_ne_exit _ _ _ _ _)
      simp only at h
      rcases Outcome.bind_eq_exit h with h | ⟨m1, _, h⟩
      · exact absurd h (store_ne_exit _ _ _ _ _)
      split at h
      · simp at h
      · rcases Outcome.bind_eq_exit h with h | ⟨m2, _, h⟩
        · exact absurd h (store_ne_exit _ _ _ _ _)
        · simp at h
    have l0 := (send_header_cwd_length h0).1
    rcases Outcome.bind_eq_exit h with h | ⟨r1, h1, h⟩
    · exact absurd h (send_header_args_ne_exit _ _ _ _ _)
    have l1 := (send_header_args_length _ _ _ _ h1).1
    rcases Outcome.bind_eq_exit h with h | ⟨r2, h2, h⟩
    · unfold send_header_cp at h
      split at h
      · simp at h
      · split at h
        · rcases Outcome.bind_eq_exit h with h | ⟨_, _, h⟩
          · exact absurd h (store_ne_exit _ _ _ _ _)
          · simp at h
        · simp at h
    have l2 := (send_header_cp_length h2).1
    unfold send_header_end at h
    rcases Outcome.bind_eq_exit h with h | ⟨m5, h5, h⟩
    · exact absurd h (store_ne_exit _ _ _ _ _)
    have l5 := (store_length h5).2
    simp only [List.length_cons, List.length_nil] at l5
    rw [if_neg (by omega)] at h
    simp at h

/-- From a negative `read_buf_size` the doubling loop ends, or overflows,
within as many turns as `INT_MIN` has bits. -/
theorem grow_negative (fuel : Nat) : ∀ (n size : Int), n < 0 → n * 2 ^ fuel < INT_MIN →
    grow (fuel + 1) n size ≠ .hang := by
  induction fuel with
  | zero =>
    intro n size _ hbig
    unfold grow
    split
    · rw [if_neg (by simp only [INT_MAX, INT_MIN, pow_zero, mul_one] at hbig ⊢; omega)]
      simp
    · simp
  | succ fuel ih =>
    intro n size hn hbig
    unfold grow
    split
    · split
      · exact ih (n * 2) size (by omega) (by rw [pow_succ] at hbig; linarith)
      · simp
    · simp

/-- With the 64 turns `size_read_buf` gives it, the doubling loop is out of
turns only when it starts from `read_buf_size = 0`, where it never ends. -/
theorem grow_hang_only_from_zero (n size : Int) (h : grow 64 n size = .hang) : n = 0 := by
  rcases lt_trichotomy n 0 with hn | hn | hn
  · have hbig : n * 2 ^ 63 < INT_MIN := by
      have : n ≤ -1 := by omega
      simp only [INT_MIN]
      nlinarith
    exact absurd h (grow_negative 63 n size hn hbig)
  · exact hn
  · have hbig : INT_MAX < n * 2 ^ 63 := by
      have : 1 ≤ n := by omega
      simp only [INT_MAX]
      nlinarith
    exact absurd h (grow_positive 63 n size hn hbig)

/-! ## Lemmas: the session at end of stream -/

theorem read_headers_eof (b : Nat) : read_headers [] b = .ok (0, [], []) := by
  simp [read_headers, read_headers_loop, fgets]

/-- Once the server has closed the connection, `session` does not return,
however many times the socket is reported ready. -/
theorem session_waits_at_eof (k : Nat) (stdin_closed : Bool) (w : World)
    (h : w.sock_in = []) :
    session (List.replicate k (.ready false true)) stdin_closed w
      = .waiting stdin_closed w := by
  induction k with
  | zero => rfl
  | succ k ih =>
    rw [List.replicate_succ,
      session_ready_socket false stdin_closed stdin_closed _ w w (by simp [session_stdin])]
    have hs : session_socket w = .ok (none, w) := by
      unfold session_socket
      rw [h, read_headers_eof]
      simp only [Outcome.bind_ok, if_true]
      congr 2
      cases w
      simp_all
    rw [hs]
    exact ih

/-! ## Lemmas: a request with a value too long for `read_buf` -/

theorem Outcome.bind_eq_hang {α β : Type} {x : Outcome α} {f : α → Outcome β}
    (h : x.bind f = .hang) : x = .hang ∨ ∃ a, x = .ok a ∧ f a = .hang := by
  cases x with
  | ok a => exact Or.inr ⟨a, rfl, h⟩
  | exit s1 m1 => simp at h
  | fault => simp at h
  | hang => exact Or.inl rfl

theorem store_ne_hang (mem bs : List Nat) (i : Nat) : store mem i bs ≠ .hang := by
  unfold store
  split <;> simp

theorem strcat_ne_hang (mem bs : List Nat) (p : Nat) : strcat mem p bs ≠ .hang := by
  unfold strcat
  split
  · simp
  · exact store_ne_hang _ _ _

theorem send_header_args_ne_hang : ∀ (args : List (List Nat)) (mem : List Nat) (p : Nat),
    send_header_args args mem p ≠ .hang
  | [], mem, p => by simp [send_header_args]
  | a :: args, mem, p => by
    intro h
    unfold send_header_args at h
    rcases Outcome.bind_eq_hang h with h | ⟨m1, _, h⟩
    · exact strcat_ne_hang _ _ _ h
    rcases Outcome.bind_eq_hang h with h | ⟨m2, _, h⟩
    · exact strcat_ne_hang _ _ _ h
    rcases Outcome.bind_eq_hang h with h | ⟨m3, _, h⟩
    · exact strcat_ne_hang _ _ _ h
    rcases Outcome.bind_eq_hang h with h | ⟨m4, _, h⟩
    · exact strcat_ne_hang _ _ _ h
    split at h
    · simp at h
    · exact send_header_args_ne_hang args _ _ h

theorem send_header_ne_hang (stack : List Nat) (getcwd : Option (List Nat))
    (argv : List (List Nat)) (cp : Option (List Nat)) :
    send_header stack getcwd argv cp ≠ .hang := by
  intro h
  unfold send_header at h
  rcases Outcome.bind_eq_hang h with h | ⟨r0, _, h⟩
  · unfold send_header_cwd at h
    rcases Outcome.bind_eq_hang h with h | ⟨m0, _, h⟩
    · exact store_ne_hang _ _ _ h
    split at h
    · simp at h
    · rcases Outcome.bind_eq_hang h with h | ⟨m1, _, h⟩
      · exact store_ne_hang _ _ _ h
      split at h
      · simp at h
      · rcases Outcome.bind_eq_hang h with h | ⟨m2, _, h⟩
        · exact store_ne_hang _ _ _ h
        · simp at h
  rcases Outcome.bind_eq_hang h with h | ⟨r1, _, h⟩
  · exact send_header_args_ne_hang _ _ _ h
  rcases Outcome.bind_eq_hang h with h | ⟨r2, _, h⟩
  · unfold send_header_cp at h
    split at h
    · simp at h
    · split at h
      · rcases Outcome.bind_eq_hang h with h | ⟨_, _, h⟩
        · exact store_ne_hang _ _ _ h
        · simp at h
      · simp at h
  unfold send_header_end at h
  rcases Outcome.bind_eq_hang h with h | ⟨m5, _, h⟩
  · exact store_ne_hang _ _ _ h
  split at h <;> simp at h

/-- A request with a value of `BUFFER_SIZE` bytes or more is stored past the
end of `read_buf`: `send_header` neither sends it nor reaches the `exit` of
its size check. -/
theorem send_header_long_value_faults (stack cwd : List Nat) (argv : List (List Nat))
    (cp : Option (List Nat)) (hstack : stack.length = BUFFER_SIZE)
    (hbig : BUFFER_SIZE ≤ cwd.length ∨ (∃ a ∈ argv.drop 1, BUFFER_SIZE ≤ a.length)
      ∨ ∃ c, cp = some c ∧ c ≠ [] ∧ BUFFER_SIZE ≤ c.length) :
    send_header stack (some cwd) argv cp = .fault := by
  cases h : send_header stack (some cwd) argv cp with
  | ok out =>
    have hs := send_header_values_short stack cwd argv cp out hstack h
    rcases hbig with hb | ⟨a, ha, hb⟩ | ⟨c, hc, hne, hb⟩
    · omega
    · have := hs.2.1 a ha; omega
    · have := hs.2.2 c hc hne; omega
  | exit s m =>
    have := (send_header_exit_is_getcwd stack (some cwd) argv cp s m hstack h).1
    simp at this
  | fault => rfl
  | hang => exact absurd h (send_header_ne_hang _ _ _ _)

/-! ## Lemmas: looking a header up -/

theorem strcmp_eq_string : ∀ (a k : List Nat), 0 ∈ a → (∀ c ∈ k, c ≠ 0) →
    strcmp_eq a k = some (decide (c_string a = k))
  | [], _, h, _ => by simp at h
  | c :: a, [], _, _ => by
    by_cases hc : c = 0
    · simp [strcmp_eq, c_string, hc]
    · simp [strcmp_eq, c_string, hc]
  | c :: a, d :: k, h, hk => by
    have hd : d ≠ 0 := hk d (by simp)
    unfold strcmp_eq
    by_cases hcd : c = d
    · subst hcd
      have ha : 0 ∈ a := by
        rcases List.mem_cons.mp h with h | h
        · exact absurd h.symm hd
        · exact h
      rw [if_pos rfl, strcmp_eq_string a k ha (fun x hx => hk x (List.mem_cons_of_mem _ hx))]
      have : c_string (c :: a) = c :: c_string a := by
        simp [c_string, List.takeWhile_cons, hd]
      rw [this]
      simp
    · rw [if_neg hcd]
      by_cases hc : c = 0
      · simp [c_string, hc]
      · have : c_string (c :: a) = c :: c_string a := by
          simp [c_string, List.takeWhile_cons, hc]
        rw [this]
        simp [hcd]

theorem find_header_miss : ∀ (pre post : List header_t) (k : List Nat) (n : Nat),
    pre.length ≤ n → (∀ x ∈ pre, 0 ∈ x.key ∧ c_string x.key ≠ k) → (∀ c ∈ k, c ≠ 0) →
    find_header (pre ++ post) k n = find_header post k (n - pre.length)
  | [], _, _, _, _, _, _ => by simp
  | x :: pre, post, k, 0, h, _, _ => by simp at h
  | x :: pre, post, k, n + 1, h, hpre, hk => by
    have hx := hpre x (by simp)
    rw [List.cons_append, find_header, strcmp_eq_string x.key k hx.1 hk]
    simp only [hx.2, decide_False]
    rw [find_header_miss pre post k n (by simpa using h)
      (fun y hy => hpre y (List.mem_cons_of_mem _ hy)) hk]
    simp

theorem find_header_eq_find : ∀ (headers : List header_t) (k : List Nat) (n : Nat),
    n ≤ headers.length → (∀ h ∈ headers.take n, 0 ∈ h.key) → (∀ c ∈ k, c ≠ 0) →
    find_header headers k n
      = .ok (((headers.take n).find? (fun h => decide (c_string h.key = k))).map
          (fun h => h.value))
  | _, _, 0, _, _, _ => by simp [find_header]
  | [], _, n + 1, h, _, _ => by simp at h
  | x :: hs, k, n + 1, h, hkeys, hk => by
    have hx : 0 ∈ x.key := hkeys x (by simp)
    rw [find_header, strcmp_eq_string x.key k hx hk, List.take_succ_cons, List.find?_cons]
    by_cases hm : c_string x.key = k
    · simp [hm]
    · simp only [hm, decide_False]
      exact find_header_eq_find hs k n (by simpa using h)
        (fun y hy => hkeys y (by rw [List.take_succ_cons]; exact List.mem_cons_of_mem _ hy)) hk

/-! ## Lemmas: stdin and the socket in `session` -/

theorem split_socket_output_keeps {w w2 : World} {sid : List Nat} {size r : Int}
    (h : split_socket_output w sid size = .ok (r, w2)) :
    w2.stdin = w.stdin ∧ w2.sock_out = w.sock_out := by
  unfold split_socket_output at h
  obtain ⟨_, _, h⟩ := Outcome.bind_eq_ok h
  obtain ⟨_, _, h⟩ := Outcome.bind_eq_ok h
  split at h
  · exact absurd h (by simp)
  · split at h
    · exact absurd h (by simp)
    · split at h
      · exact absurd h (by simp)
      · simp only [Outcome.ok.injEq, Prod.mk.injEq] at h
        rw [← h.2]
        exact ⟨rfl, rfl⟩

theorem session_socket_keeps {w w2 : World} {r : Option Int}
    (h : session_socket w = .ok (r, w2)) :
    w2.stdin = w.stdin ∧ w2.sock_out = w.sock_out := by
  unfold session_socket at h
  obtain ⟨hd, _, h⟩ := Outcome.bind_eq_ok h
  split at h
  · cases h; exact ⟨rfl, rfl⟩
  · obtain ⟨status, _, h⟩ := Outcome.bind_eq_ok h
    split at h
    · split at h
      · exact absurd h (by simp)
      · cases h; exact ⟨rfl, rfl⟩
    · obtain ⟨sid, _, h⟩ := Outcome.bind_eq_ok h
      split at h
      · cases h; exact ⟨rfl, rfl⟩
      · obtain ⟨sz, _, h⟩ := Outcome.bind_eq_ok h
        split at h
        · cases h; exact ⟨rfl, rfl⟩
        · split at h
          · exact absurd h (by simp)
          · obtain ⟨r2, h2, h⟩ := Outcome.bind_eq_ok h
            obtain ⟨r2a, r2b⟩ := r2
            have hk := split_socket_output_keeps h2
            split at h <;> (cases h; exact hk)

theorem session_closed_keeps : ∀ (events : List Event) (w w1 : World),
    (session events true w).final = some w1 →
    w1.stdin = w.stdin ∧ w1.sock_out = w.sock_out
  | [], w, w1, h => by
    simp only [session, Result.final, Option.some.injEq] at h
    rw [← h]; exact ⟨rfl, rfl⟩
  | .failure :: _, w, w1, h => by
    simp only [session, Result.final, Option.some.injEq] at h
    rw [← h]; exact ⟨rfl, rfl⟩
  | .timeout :: events, w, w1, h => by
    rw [session] at h
    have := session_closed_keeps events _ w1 h
    exact this
  | .ready si so :: events, w, w1, h => by
    have hst : session_stdin si true w = .ok (true, w) := by simp [session_stdin]
    rw [session, hst] at h
    simp only at h
    cases so with
    | false => exact session_closed_keeps events w w1 (by simpa using h)
    | true =>
      simp only [if_true] at h
      cases hs : session_socket w with
      | exit s m =>
        rw [hs] at h
        simp only [Result.final, Option.some.injEq] at h
        rw [← h]; exact ⟨rfl, rfl⟩
      | fault => rw [hs] at h; simp [Result.final] at h
      | hang => rw [hs] at h; simp [Result.final] at h
      | ok r =>
        obtain ⟨st, w2⟩ := r
        rw [hs] at h
        have hk := session_socket_keeps hs
        cases st with
        | some status =>
          simp only [Result.final, Option.some.injEq] at h
          rw [← h]; exact hk
        | none =>
          have := session_closed_keeps events w2 w1 h
          exact ⟨this.1.trans hk.1, this.2.trans hk.2⟩

/-! ## Lemmas: the lines `read_header` refuses -/

/-- The second `strtok` of `read_header` on `<rest>\n`, for a `<rest>` without
newline: NULL when `<rest>` holds spaces and ':' only, the first run of
other bytes otherwise. -/
theorem strtok_rest (rest : List Nat) (hrest : ∀ c ∈ rest, c ≠ 10) :
    (rest.dropWhile (fun c => decide (c ∈ str " :")) = [] →
        strtok (rest ++ [10]) (str " :\n") = none)
      ∧ (rest.dropWhile (fun c => decide (c ∈ str " :")) ≠ [] →
        ∃ after, strtok (rest ++ [10]) (str " :\n")
          = some ((rest.dropWhile (fun c => decide (c ∈ str " :"))).takeWhile
              (fun c => !decide (c ∈ str " :")), after)) := by
  have hsame : ∀ c ∈ rest, (fun c => decide (c ∈ str " :\n")) c
      = (fun c => decide (c ∈ str " :")) c := by
    intro c hc
    rw [value_delim_eq, key_delim_eq]
    simp [hrest c hc]
  have hd := dropWhile_same rest hsame
  constructor
  · intro hnil
    rw [← hd] at hnil
    unfold strtok
    rw [dropWhile_append_right _ _ hnil, value_delim_eq]
    simp [List.dropWhile]
  · intro hne
    have hne2 : rest.dropWhile (fun c => decide (c ∈ str " :\n")) ≠ [] := by rwa [hd]
    cases hs : strtok (rest ++ [10]) (str " :\n") with
    | none =>
      unfold strtok at hs
      rw [dropWhile_append_left _ _ hne2] at hs
      obtain ⟨c, t, hct⟩ := List.exists_cons_of_ne_nil hne2
      rw [hct] at hs
      simp at hs
    | some ta =>
      obtain ⟨tok, after⟩ := ta
      exact ⟨after, by rw [strtok_value rest tok after hrest hs]⟩

/-- What `read_header` does with a line `<key>:<rest>\n` whose key is not
empty and holds no space, case by case. -/
theorem read_header_cases (key rest : List Nat) (hne : key ≠ [])
    (hkey : ∀ c ∈ key, c ≠ 0 ∧ c ≠ 32 ∧ c ≠ 58) (hrest : ∀ c ∈ rest, c ≠ 0 ∧ c ≠ 10) :
    read_header (key ++ 58 :: rest ++ [10]) =
      if key.length > MAX_HEADER_KEY_LEN then
        .exit 1 (str "\nkey " ++ key ++ str " too long\n")
      else if rest.dropWhile (fun c => decide (c ∈ str " :")) = [] then .fault
      else if ((rest.dropWhile (fun c => decide (c ∈ str " :"))).takeWhile
          (fun c => !decide (c ∈ str " :"))).dropWhile isspace = [] then
        .exit 1 (str "\nformat error\n")
      else if (((rest.dropWhile (fun c => decide (c ∈ str " :"))).takeWhile
          (fun c => !decide (c ∈ str " :"))).dropWhile isspace).length
            > MAX_HEADER_VALUE_LEN then
        .exit 1 (str "\nkey " ++ ((rest.dropWhile (fun c => decide (c ∈ str " :"))).takeWhile
          (fun c => !decide (c ∈ str " :"))).dropWhile isspace ++ str " too long\n")
      else
        .ok (header_of key (((rest.dropWhile (fun c => decide (c ∈ str " :"))).takeWhile
          (fun c => !decide (c ∈ str " :"))).dropWhile isspace)) := by
  have hnz : ∀ c ∈ key ++ 58 :: rest ++ [10], c ≠ 0 := by
    intro c hc
    simp only [List.mem_append, List.mem_cons, List.mem_singleton, List.not_mem_nil,
      or_false] at hc
    rcases hc with (hc | hc | hc) | hc
    · exact (hkey c hc).1
    · omega
    · exact (hrest c hc).1
    · omega
  have hr := strtok_rest rest (fun c hc => (hrest c hc).2)
  unfold read_header
  rw [c_string_of_nonzero _ hnz, List.append_assoc, List.cons_append,
    strtok_key key (rest ++ [10]) hne (fun c hc => (hkey c hc).2)]
  simp only
  by_cases hlen : key.length > MAX_HEADER_KEY_LEN
  · rw [if_pos hlen, if_pos hlen]
  · rw [if_neg hlen, if_neg hlen]
    by_cases hnil : rest.dropWhile (fun c => decide (c ∈ str " :")) = []
    · rw [hr.1 hnil, if_pos hnil]
    · obtain ⟨after, ha⟩ := hr.2 hnil
      rw [ha, if_neg hnil]
      simp only
      have hv10 : ∀ c ∈ ((rest.dropWhile (fun c => decide (c ∈ str " :"))).takeWhile
          (fun c => !decide (c ∈ str " :"))).dropWhile isspace, c ≠ 10 := by
        intro c hc
        have h1 := (List.dropWhile_sublist _).subset hc
        have h2 := (List.takeWhile_sublist _).subset h1
        have h3 := (List.dropWhile_sublist _).subset h2
        exact (hrest c h3).2
      cases hv : ((rest.dropWhile (fun c => decide (c ∈ str " :"))).takeWhile
          (fun c => !decide (c ∈ str " :"))).dropWhile isspace with
      | nil => simp
      | cons c t =>
        have hc : c ≠ 10 := hv10 c (by rw [hv]; simp)
        simp [hc, header_of]

/-! ## Lemmas: `read_headers` on a block of lines -/

theorem accepted_not_blank (l : List Nat) (h : header_t) (hl : ∀ c ∈ l, c ≠ 10)
    (hok : read_header (l ++ [10]) = .ok h) : (skip_cr (l ++ [10])).head? ≠ some LF := by
  cases l with
  | nil =>
    have : read_header ([] ++ [10]) = .fault := by decide
    rw [this] at hok
    exact absurd hok (by simp)
  | cons c t =>
    have hc : c ≠ 10 := hl c (by simp)
    cases t with
    | nil =>
      by_cases h13 : c = 13
      · subst h13
        have : read_header ([13] ++ [10]) = .fault := by decide
        rw [this] at hok
        exact absurd hok (by simp)
      · simp [skip_cr, h13, hc]
    | cons d t => exact skip_cr_head c d _ hc (hl d (by simp))

/-- One turn of the loop of `read_headers` on a line that `read_header`
accepts and that one `fgets` takes whole. -/
theorem read_headers_loop_line (l : List Nat) (h : header_t) (X : List Nat)
    (acc : List header_t) (fuel b : Nat) (hl : ∀ c ∈ l, c ≠ 10)
    (hlen : l.length + 1 < BUFFER_SIZE) (hok : read_header (l ++ [10]) = .ok h)
    (hroom : acc.length < b) :
    read_headers_loop (fuel + 1) (l ++ [10] ++ X) acc b =
      if acc.length + 1 ≥ b then .exit 1 (str "\ntoo many headers\n")
      else read_headers_loop fuel X (acc ++ [h]) b := by
  have hfg := fgets_whole l X hl hlen
  have hs : l ++ [10] ++ X = l ++ 10 :: X := by simp
  rw [hs, read_headers_loop, hfg]
  simp only
  rw [if_neg (accepted_not_blank l h hl hok), if_neg (by omega), hok]

theorem read_headers_loop_lines : ∀ (lhs : List (List Nat × header_t)) (acc : List header_t)
    (fuel : Nat) (X : List Nat) (b : Nat),
    (∀ p ∈ lhs, (∀ c ∈ p.1, c ≠ 10) ∧ p.1.length + 1 < BUFFER_SIZE
      ∧ read_header (p.1 ++ [10]) = .ok p.2) →
    acc.length + lhs.length < b →
    read_headers_loop (lhs.length + fuel) (lines_block (lhs.map Prod.fst) ++ X) acc b
      = read_headers_loop fuel X (acc ++ lhs.map Prod.snd) b
  | [], acc, fuel, X, b, _, _ => by simp [lines_block]
  | (l, h) :: lhs, acc, fuel, X, b, hall, hroom => by
    obtain ⟨hl, hlen, hok⟩ := hall (l, h) (by simp)
    simp only [List.length_cons] at hroom
    have e1 : ((l, h) :: lhs).length + fuel = (lhs.length + fuel) + 1 := by
      simp only [List.length_cons]; omega
    have e2 : lines_block (((l, h) :: lhs).map Prod.fst) ++ X
        = l ++ [10] ++ (lines_block (lhs.map Prod.fst) ++ X) := by
      simp [lines_block]
    rw [e1, e2, read_headers_loop_line l h _ acc _ b hl hlen hok (by omega),
      if_neg (by omega),
      read_headers_loop_lines lhs (acc ++ [h]) fuel X b
        (fun p hp => hall p (List.mem_cons_of_mem _ hp))
        (by simp only [List.length_append, List.length_cons, List.length_nil]; omega)]
    simp

theorem read_headers_loop_too_many : ∀ (lhs : List (List Nat × header_t))
    (acc : List header_t) (fuel : Nat) (X : List Nat) (b : Nat),
    (∀ p ∈ lhs, (∀ c ∈ p.1, c ≠ 10) ∧ p.1.length + 1 < BUFFER_SIZE
      ∧ read_header (p.1 ++ [10]) = .ok p.2) →
    acc.length < b → b ≤ acc.length + lhs.length →
    read_headers_loop (lhs.length + fuel) (lines_block (lhs.map Prod.fst) ++ X) acc b
      = .exit 1 (str "\ntoo many headers\n")
  | [], acc, fuel, X, b, _, h1, h2 => by simp at h2; omega
  | (l, h) :: lhs, acc, fuel, X, b, hall, h1, h2 => by
    obtain ⟨hl, hlen, hok⟩ := hall (l, h) (by simp)
    simp only [List.length_cons] at h2
    have e1 : ((l, h) :: lhs).length + fuel = (lhs.length + fuel) + 1 := by
      simp only [List.length_cons]; omega
    have e2 : lines_block (((l, h) :: lhs).map Prod.fst) ++ X
        = l ++ [10] ++ (lines_block (lhs.map Prod.fst) ++ X) := by
      simp [lines_block]
    rw [e1, e2, read_headers_loop_line l h _ acc _ b hl hlen hok h1]
    by_cases hfull : acc.length + 1 ≥ b
    · rw [if_pos hfull]
    · rw [if_neg hfull]
      exact read_headers_loop_too_many lhs (acc ++ [h]) fuel X b
        (fun p hp => hall p (List.mem_cons_of_mem _ hp))
        (by simp only [List.length_append, List.length_cons, List.length_nil]; omega)
        (by simp only [List.length_append, List.length_cons, List.length_nil]; omega)

theorem lines_block_length (ls : List (List Nat)) : ls.length ≤ (lines_block ls).length := by
  induction ls with
  | nil => simp [lines_block]
  | cons l ls ih =>
    simp only [lines_block, List.length_append, List.length_cons, List.length_nil]
    omega

theorem read_headers_loop_blank (fuel : Nat) (acc : List header_t) (rest : List Nat)
    (b : Nat) :
    read_headers_loop (fuel + 1) (10 :: rest) acc b = .ok (acc.length, acc, rest)
      ∧ read_headers_loop (fuel + 1) (13 :: 10 :: rest) acc b = .ok (acc.length, acc, rest)
      ∧ read_headers_loop (fuel + 1) [] acc b = .ok (0, acc, []) := by
  refine ⟨?_, ?_, ?_⟩
  · have hfg : fgets BUFFER_SIZE ([] ++ 10 :: rest) = some ([] ++ [10], rest) :=
      fgets_whole [] rest (by simp) (by simp)
    unfold read_headers_loop
    simp only [List.nil_append] at hfg
    rw [hfg]
    simp [skip_cr]
  · have hfg : fgets BUFFER_SIZE ([13] ++ 10 :: rest) = some ([13] ++ [10], rest) :=
      fgets_whole [13] rest (by simp) (by decide)
    unfold read_headers_loop
    simp only [List.singleton_append] at hfg
    rw [hfg]
    simp [skip_cr]
  · simp [read_headers_loop, fgets]

/-! ## Lemmas: where `read_headers` stores -/

theorem read_headers_stores_bound (fuel : Nat) : ∀ (stream : List Nat) (pos b : Nat),
    pos < b → ∀ i ∈ read_headers_stores fuel stream pos b, pos ≤ i ∧ i < b := by
  induction fuel with
  | zero => intro stream pos b _ i hi; simp [read_headers_stores] at hi
  | succ fuel ih =>
    intro stream pos b hpos i hi
    rw [read_headers_stores] at hi
    cases hf : fgets BUFFER_SIZE stream with
    | none => rw [hf] at hi; simp at hi
    | some lr =>
      obtain ⟨line, rest⟩ := lr
      rw [hf] at hi
      simp only at hi
      by_cases hblank : (skip_cr line).head? = some LF
      · rw [if_pos hblank] at hi; simp at hi
      · rw [if_neg hblank] at hi
        cases hrd : read_header line with
        | ok h =>
          rw [hrd] at hi
          simp only at hi
          by_cases hfull : pos + 1 ≥ b
          · rw [if_pos hfull] at hi
            have : i = pos := by simpa using hi
            omega
          · rw [if_neg hfull] at hi
            rcases List.mem_cons.mp hi with hi | hi
            · omega
            · have := ih rest (pos + 1) b (by omega) i hi
              omega
        | exit s m =>
          rw [hrd] at hi
          have : i = pos := by simpa using hi
          omega
        | fault =>
          rw [hrd] at hi
          have : i = pos := by simpa using hi
          omega
        | hang =>
          rw [hrd] at hi
          have : i = pos := by simpa using hi
          omega

theorem read_headers_loop_count (fuel : Nat) : ∀ (stream : List Nat) (hs : List header_t)
    (b n : Nat) (hs1 : List header_t) (rest : List Nat),
    read_headers_loop fuel stream hs b = .ok (n, hs1, rest) →
    hs.length ≤ hs1.length ∧ (hs.length < b → hs1.length < b)
      ∧ read_headers_stores fuel stream hs.length b
          = List.range' hs.length (hs1.length - hs.length) := by
  induction fuel with
  | zero => intro stream hs b n hs1 rest h; simp [read_headers_loop] at h
  | succ fuel ih =>
    intro stream hs b n hs1 rest h
    rw [read_headers_loop] at h
    rw [read_headers_stores]
    cases hf : fgets BUFFER_SIZE stream with
    | none =>
      rw [hf] at h
      cases h
      simp
    | some lr =>
      obtain ⟨line, r⟩ := lr
      rw [hf] at h
      simp only at h ⊢
      by_cases hblank : (skip_cr line).head? = some LF
      · rw [if_pos hblank] at h
        cases h
        rw [if_pos hblank]
        simp
      · rw [if_neg hblank] at h
        rw [if_neg hblank]
        by_cases hroom : b ≤ hs.length
        · rw [if_pos hroom] at h
          exact absurd h (by simp)
        · rw [if_neg hroom] at h
          cases hrd : read_header line with
          | ok hd =>
            rw [hrd] at h
            simp only at h ⊢
            by_cases hmany : hs.length + 1 ≥ b
            · rw [if_pos hmany] at h
              exact absurd h (by simp)
            · rw [if_neg hmany] at h
              rw [if_neg hmany]
              have := ih _ _ _ _ _ _ h
              simp only [List.length_append, List.length_cons, List.length_nil] at this
              refine ⟨by omega, fun _ => this.2.1 (by omega), ?_⟩
              rw [this.2.2]
              have e : hs1.length - hs.length = (hs1.length - (hs.length + 1)) + 1 := by omega
              rw [e, List.range'_succ]
          | exit s m => rw [hrd] at h; exact absurd h (by simp)
          | fault => rw [hrd] at h; exact absurd h (by simp)
          | hang => rw [hrd] at h; exact absurd h (by simp)

/-! ## Lemmas: the loop of `main` -/

theorem open_socket_refused (E : Int) (a : Attempt) (hE : E ≠ 0)
    (h : a.gethostbyname = true ∧ 0 ≤ a.socket ∧ a.connect < 0) :
    open_socket E a = .ok (-1) := by
  unfold open_socket
  rw [if_neg (by simp [h.1]), if_neg (by omega), if_pos h.2.2, if_pos hE]

theorem open_socket_connected (E : Int) (a : Attempt)
    (h : a.gethostbyname = true ∧ 0 ≤ a.socket ∧ 0 ≤ a.connect) :
    open_socket E a = .ok a.socket := by
  unfold open_socket
  rw [if_neg (by simp [h.1]), if_neg (by omega), if_neg (by omega)]

theorem main_loop_refused (E : Int) (M : Nat) (argv : List (List Nat)) (stack : List Nat)
    (getcwd classpath : Option (List Nat)) (events : List Event) (hE : E ≠ 0) :
    ∀ (refused rest : List (Attempt × StartEnv)) (w : World) (calls : List Call),
    (∀ p ∈ refused, (p.1.gethostbyname = true ∧ 0 ≤ p.1.socket ∧ p.1.connect < 0)
      ∧ ∃ cmds, start_server M p.2 argv = .ok cmds) →
    ∃ w1, main_loop E M argv stack getcwd classpath events (refused ++ rest) w calls
      = main_loop E M argv stack getcwd classpath events rest w1
          (calls ++ List.replicate refused.length Call.start_server)
  | [], rest, w, calls, _ => ⟨w, by simp⟩
  | (a, env) :: refused, rest, w, calls, h => by
    obtain ⟨ha, cmds, hs⟩ := h (a, env) (by simp)
    obtain ⟨w1, ih⟩ := main_loop_refused E M argv stack getcwd classpath events hE refused rest
      { w with err := w.err ++ str "starting server..\n" } (calls ++ [Call.start_server])
      (fun p hp => h p (List.mem_cons_of_mem _ hp))
    refine ⟨w1, ?_⟩
    rw [List.cons_append, main_loop, open_socket_refused E a hE ha]
    simp only [if_true]
    rw [hs]
    simp only
    rw [ih, List.length_cons, List.replicate_succ, List.append_assoc, List.singleton_append]

/-! ## Lemmas: the session after the server closed the connection -/

/-- At end of stream the socket part of a turn reads nothing, writes nothing
and lets the loop go on. -/
theorem session_socket_eof (w : World) (h : w.sock_in = []) :
    session_socket w = .ok (none, w) := by
  unfold session_socket
  rw [h, read_headers_eof]
  simp only [Outcome.bind_ok, if_true]
  congr 2
  cases w
  simp_all

/-- Once the stream from the server is at its end, no sequence of `select`
results makes `session` return. -/
theorem session_eof_no_return : ∀ (events : List Event) (stdin_closed : Bool) (w : World),
    w.sock_in = [] →
    ∀ (status : Int) (w1 : World), session events stdin_closed w ≠ .returned status w1
  | [], _, _, _, _, _ => by simp [session]
  | .failure :: _, _, _, _, _, _ => by simp [session]
  | .timeout :: events, c, w, h, s, w1 => by
    rw [session]
    have := session_eof_no_return events c
      { w with err := w.err ++ str "\ntimeout?\n" } h s w1
    exact this
  | .ready si so :: events, c, w, h, s, w1 => by
    rw [session]
    cases hst : session_stdin si c w with
    | exit s1 m => simp
    | fault => simp
    | hang => simp
    | ok r =>
      obtain ⟨c1, w2⟩ := r
      have hk : w2.sock_in = [] := (session_stdin_keeps hst).2.2.1.trans h
      simp only
      cases so with
      | false => simpa using session_eof_no_return events c1 w2 hk s w1
      | true =>
        simp only [if_true]
        rw [session_socket_eof w2 hk]
        exact session_eof_no_return events c1 w2 hk s w1

set_option maxRecDepth 100000 in
/-- A key of exactly `MAX_HEADER_KEY_LEN` bytes passes the length check of
`read_header`, and `strncpy` stores it without a NUL: the array holds no
string, and `find_header` reads past what was written when it compares it.
The same for a value token of exactly `MAX_HEADER_VALUE_LEN` bytes. -/
theorem read_header_unterminated :
    read_header (List.replicate 30 75 ++ str ": v\n")
        = .ok (header_of (List.replicate 30 75) (str "v"))
      ∧ string_of (header_of (List.replicate 30 75) (str "v")).key = none
      ∧ find_header [header_of (List.replicate 30 75) (str "v")] (List.replicate 30 75) 1
          = .fault
      ∧ read_header (str "K: " ++ List.replicate 512 118 ++ [10])
          = .ok (header_of (str "K") (List.replicate 512 118))
      ∧ string_of (header_of (str "K") (List.replicate 512 118)).value = none :=
  ⟨by decide, by decide, by decide, by decide, by decide⟩

/-- When the socket is ready and `read_headers` returns 0, the turn writes
nothing and the loop of `session` goes on with the next event. -/
theorem session_empty_frame_continues
    (stdin_ready stdin_closed closed1 : Bool) (events : List Event) (w w1 : World)
    (headers : List header_t) (rest : List Nat)
    (hstdin : session_stdin stdin_ready stdin_closed w = .ok (closed1, w1))
    (hframe : read_headers w1.sock_in MAX_HEADER = .ok (0, headers, rest)) :
    session (.ready stdin_ready true :: events) stdin_closed w
      = session events closed1 { w1 with sock_in := rest } := by
  rw [session_ready_socket _ _ _ _ _ _ hstdin]
  simp [session_socket, hframe]


/-! ## The session loop: terminating frames -/

/-- C2: whatever the history of the session (`w`, `stdin_closed`), when the
frame decoded from the socket in this turn has a `Status` header whose value
is the `int` `s`, `session` returns `s` in this turn, whatever other headers
the frame has, and writes nothing to stdout or stderr. -/
theorem session_status_returns (s : Int) (hs : INT_MIN ≤ s ∧ s ≤ INT_MAX)
    (stdin_ready stdin_closed closed1 : Bool) (events : List Event) (w w1 : World)
    (n : Nat) (headers : List header_t) (rest v : List Nat)
    (hstdin : session_stdin stdin_ready stdin_closed w = .ok (closed1, w1))
    (hframe : read_headers w1.sock_in MAX_HEADER = .ok (n, headers, rest))
    (hstatus : find_header headers HEADER_KEY_STATUS n = .ok (some v))
    (hvalue : string_of v = some (itoa s)) :
    session (.ready stdin_ready true :: events) stdin_closed w
        = .returned s { w1 with sock_in := rest }
      ∧ w1.out = w.out ∧ w1.err = w.err := by
  have hn : n ≠ 0 := by
    intro h0
    rw [h0] at hstatus
    simp [find_header] at hstatus
  refine ⟨?_, (session_stdin_keeps hstdin).1, (session_stdin_keeps hstdin).2.1⟩
  rw [session_ready_socket _ _ _ _ _ _ hstdin]
  simp [session_socket, hframe, hn, hstatus, atoi_itoa v s hs hvalue]

/-- C3 fails on the code: at end of stream `read_headers` returns 0, and
`session` takes the `continue` of line 321 instead of returning 0. The
socket of a closed connection stays readable, so `select` reports it again
and again: after any number of such turns `session` is still in its loop,
and whatever `select` reports from then on, stdin included, `session` never
returns a status. -/
theorem session_end_of_stream_never_returns :
    read_headers [] MAX_HEADER = .ok (0, [], [])
      ∧ (∀ k : Nat, session (List.replicate k (.ready false true)) false (world_of [])
          = .waiting false (world_of []))
      ∧ (∀ (events : List Event) (stdin_closed : Bool) (w : World) (status : Int) (w1 : World),
          session events stdin_closed { w with sock_in := [] } ≠ .returned status w1) :=
  ⟨read_headers_eof MAX_HEADER,
    fun k => session_waits_at_eof k false (world_of []) rfl,
    fun events stdin_closed w status w1 =>
      session_eof_no_return events stdin_closed { w with sock_in := [] } rfl status w1⟩

/-- C4: when the frame decoded in this turn is not empty, has no `Status`
header and lacks the `Channel` header or the `Size` header, `session` returns
1; stdout is left as it was, stderr gets the one line that names the missing
header, and nothing after the header block is taken off the stream. -/
theorem session_missing_header_returns_one
    (stdin_ready stdin_closed closed1 : Bool) (events : List Event) (w w1 : World)
    (n : Nat) (headers : List header_t) (rest : List Nat)
    (hstdin : session_stdin stdin_ready stdin_closed w = .ok (closed1, w1))
    (hframe : read_headers w1.sock_in MAX_HEADER = .ok (n, headers, rest))
    (hn : n ≠ 0)
    (hstatus : find_header headers HEADER_KEY_STATUS n = .ok none)
    (hmiss : find_header headers HEADER_KEY_CHANNEL n = .ok none
      ∨ find_header headers HEADER_KEY_SIZE n = .ok none) :
    ∃ missing, (missing = HEADER_KEY_CHANNEL ∨ missing = HEADER_KEY_SIZE) ∧
      session (.ready stdin_ready true :: events) stdin_closed w
        = .returned 1 { w1 with
            sock_in := rest
            err := w1.err ++ (str "\nrequired header " ++ missing ++ str " not found\n") }
      ∧ w1.out = w.out ∧ w1.err = w.err := by
  have hkeep := session_stdin_keeps hstdin
  have hst := read_headers_stored hframe
  have hlen : n ≤ headers.length := by
    rcases hst.1 with h | h <;> omega
  obtain ⟨c, hc⟩ := find_header_defined headers HEADER_KEY_CHANNEL n hlen
    (fun h hh => by rw [hst.2 h hh, channel_key_eq]; decide)
  rw [session_ready_socket _ _ _ _ _ _ hstdin]
  cases c with
  | none =>
    refine ⟨HEADER_KEY_CHANNEL, Or.inl rfl, ?_, hkeep.1, hkeep.2.1⟩
    simp [session_socket, hframe, hn, hstatus, hc]
  | some sid =>
    have hsz : find_header headers HEADER_KEY_SIZE n = .ok none := by
      rcases hmiss with h | h
      · rw [hc] at h; exact absurd h (by simp)
      · exact h
    refine ⟨HEADER_KEY_SIZE, Or.inr rfl, ?_, hkeep.1, hkeep.2.1⟩
    simp [session_socket, hframe, hn, hstatus, hc, hsz]

set_option maxRecDepth 100000 in
/-- C2 at a session under way: `Status: 7` and nothing else ends it with 7. -/
theorem session_status_returns_witness :
    session [.ready true true] false (world_under_way (str "Status: 7\n\n"))
        = .returned 7 { world_forwarded (str "Status: 7\n\n") with sock_in := [] }
      ∧ (world_forwarded (str "Status: 7\n\n")).out = (world_under_way (str "Status: 7\n\n")).out
      ∧ (world_forwarded (str "Status: 7\n\n")).err = (world_under_way (str "Status: 7\n\n")).err :=
  session_status_returns 7 (by decide) true false false []
    (world_under_way (str "Status: 7\n\n")) (world_forwarded (str "Status: 7\n\n"))
    1 [header_of (str "Status") (str "7")] [] (strncpy (str "7") MAX_HEADER_VALUE_LEN)
    (by decide) (by decide) (by decide) (by decide)

set_option maxRecDepth 100000 in
/-- C4 at a session under way: a frame with `Channel` and no `Size`. -/
theorem session_missing_header_returns_one_witness :
    ∃ missing, (missing = HEADER_KEY_CHANNEL ∨ missing = HEADER_KEY_SIZE) ∧
      session [.ready true true] false (world_under_way (str "Channel: o\n\nabc"))
        = .returned 1 { world_forwarded (str "Channel: o\n\nabc") with
            sock_in := str "abc"
            err := (world_forwarded (str "Channel: o\n\nabc")).err
              ++ (str "\nrequired header " ++ missing ++ str " not found\n") }
      ∧ (world_forwarded (str "Channel: o\n\nabc")).out
          = (world_under_way (str "Channel: o\n\nabc")).out
      ∧ (world_forwarded (str "Channel: o\n\nabc")).err
          = (world_under_way (str "Channel: o\n\nabc")).err :=
  session_missing_header_returns_one true false false []
    (world_under_way (str "Channel: o\n\nabc")) (world_forwarded (str "Channel: o\n\nabc"))
    1 [header_of (str "Channel") (str "o")] (str "abc")
    (by decide) (by decide) (by decide) (by decide) (Or.inr (by decide))

/-! ## The session loop: output frames -/

set_option maxRecDepth 100000 in
/-- C1 fails on the code: the server sends an output frame of size 0, an
output frame of size 1 and `Status: 7`, the socket is ready in every turn
and stdin never is. The first frame leaves `read_buf_size` at 0, and on the
second frame the loop that doubles it never ends: `session` does not return
7 and the byte `x` never reaches stdout. And when the first output frame
has 513 bytes, they are read into the 512 bytes allocated. -/
theorem session_zero_size_frame_hangs :
    session [.ready false true, .ready false true, .ready false true] false
        (world_of (str "Channel: o\nSize: 0\n\nChannel: o\nSize: 1\n\nxStatus: 7\n\n"))
      = .hang
    ∧ session [.ready false true, .ready false true] false
        (world_of (str "Channel: o\nSize: 513\n\n" ++ List.replicate 513 120
          ++ str "Status: 7\n\n"))
      = .fault :=
  ⟨by decide, by decide⟩

set_option maxRecDepth 100000 in
/-- C6 fails on the code: after a first call with size 0 the call
`split_socket_output(stream, "o", 1)` on a stream that holds the byte `x`
does not return; a first call with more than `BUFFER_SIZE` bytes writes past
the `BUFFER_SIZE` bytes allocated. -/
theorem split_socket_output_after_zero_hangs :
    (split_socket_output (world_of (str "x")) (str "o" ++ [0]) 0).bind
        (fun r => split_socket_output r.2 (str "o" ++ [0]) 1) = .hang
      ∧ split_socket_output (world_of (List.replicate 513 120)) (str "o" ++ [0]) 513
          = .fault := by
  decide

/-! ## The request -/

set_option maxRecDepth 100000 in
/-- C7 fails on the code: with the working directory `/`, the one argument
`x`, no CLASSPATH, and a local array `read_buf` that holds the byte `A` at
offset 7 when `send_header` is entered, the request sent has that byte
between the `Cwd` line and the `Arg` line: `strcat` appends to whatever
string the array holds after the `Cwd` line. -/
theorem send_header_stale_byte :
    send_header (List.replicate 7 0 ++ [65] ++ List.replicate 504 0) (some (str "/"))
        [str "groovyclient", str "x"] none
      = .ok (str "Cwd: /\nAArg: x\n\n") := by
  decide

set_option maxRecDepth 100000 in
/-- C8 fails on the code: with the working directory `/` and one argument of
600 bytes the request has 614 bytes, and `strcat` writes past the end of
the 512 bytes of `read_buf` before the size check is reached; the same with
an argument of 4096 bytes, which is stored over more than 3500 bytes of
the stack above the array. -/
theorem send_header_overrun :
    send_header (List.replicate 512 0) (some (str "/"))
        [str "groovyclient", List.replicate 600 97] none
      = .fault
    ∧ send_header (List.replicate 512 0) (some (str "/"))
        [str "groovyclient", List.replicate 4096 97] none
      = .fault :=
  ⟨by decide,
    send_header_long_value_faults _ _ _ _ (List.length_replicate _ _)
      (Or.inr (Or.inl ⟨List.replicate 4096 97, List.mem_cons_self _ _,
        by rw [List.length_replicate]; decide⟩))⟩

/-! ## Decoding a header line -/

/-- C10, as the code has it: for a line `<key><colon><rest>\n` that
`read_header` accepts, whose key is not empty, holds no space and has fewer
than `MAX_HEADER_KEY_LEN` bytes, and whose value token has fewer than
`MAX_HEADER_VALUE_LEN` bytes, the string left in `header->key` is the text
before the first ':' and the string left in `header->value` is the first
run of bytes of `<rest>` that holds neither a space nor a ':', with the
white space at its start removed; both arrays are NUL-terminated. -/
theorem read_header_key_value (key rest : List Nat) (h : header_t)
    (hne : key ≠ []) (hkey : ∀ c ∈ key, c ≠ 0 ∧ c ≠ 32 ∧ c ≠ 58)
    (hrest : ∀ c ∈ rest, c ≠ 0 ∧ c ≠ 10)
    (hklen : key.length < MAX_HEADER_KEY_LEN)
    (hvlen : (((rest.dropWhile (fun c => decide (c ∈ str " :"))).takeWhile
        (fun c => !decide (c ∈ str " :"))).dropWhile isspace).length < MAX_HEADER_VALUE_LEN)
    (hok : read_header (key ++ 58 :: rest ++ [10]) = .ok h) :
    h.key = strncpy key MAX_HEADER_KEY_LEN ∧ string_of h.key = some key ∧
    h.value = strncpy (((rest.dropWhile (fun c => decide (c ∈ str " :"))).takeWhile
        (fun c => !decide (c ∈ str " :"))).dropWhile isspace) MAX_HEADER_VALUE_LEN ∧
    string_of h.value = some (((rest.dropWhile (fun c => decide (c ∈ str " :"))).takeWhile
        (fun c => !decide (c ∈ str " :"))).dropWhile isspace) := by
  obtain ⟨_, _, rfl⟩ := read_header_line key rest hne hkey hrest h hok
  refine ⟨rfl, string_of_strncpy key _ hklen (fun c hc => (hkey c hc).1), rfl,
    string_of_strncpy _ _ hvlen ?_⟩
  intro c hc
  have h1 := (List.dropWhile_sublist _).subset hc
  have h2 := (List.takeWhile_sublist _).subset h1
  have h3 := (List.dropWhile_sublist _).subset h2
  exact (hrest c h3).1

set_option maxRecDepth 100000 in
/-- C10 fails on the code: the value `a b` is decoded as `a`, the value
`a:b` as `a`, the value `a` followed by a space as `a`, of the key `A B`
only `A` is the decoded key, `B` being taken for the value, and with an
empty key the first word after the ':' is taken for the key. -/
theorem read_header_cuts_value :
    read_header (str "Key: a b\n") = .ok (header_of (str "Key") (str "a"))
      ∧ header_of (str "Key") (str "a") ≠ header_of (str "Key") (str "a b")
      ∧ read_header (str "Key: a:b\n") = .ok (header_of (str "Key") (str "a"))
      ∧ read_header (str "Key: a \n") = .ok (header_of (str "Key") (str "a"))
      ∧ read_header (str "A B: c\n") = .ok (header_of (str "A") (str "B"))
      ∧ read_header (str ":a b\n") = .ok (header_of (str "a") (str "b")) :=
  ⟨by decide, by decide, by decide, by decide, by decide, by decide⟩

set_option maxRecDepth 100000 in
/-- C10 as the code has it, at the line `Key: a b`. -/
theorem read_header_key_value_witness :
    (header_of (str "Key") (str "a")).key = strncpy (str "Key") MAX_HEADER_KEY_LEN
      ∧ string_of (header_of (str "Key") (str "a")).key = some (str "Key")
      ∧ (header_of (str "Key") (str "a")).value
          = strncpy ((((str " a b").dropWhile (fun c => decide (c ∈ str " :"))).takeWhile
              (fun c => !decide (c ∈ str " :"))).dropWhile isspace) MAX_HEADER_VALUE_LEN
      ∧ string_of (header_of (str "Key") (str "a")).value
          = some ((((str " a b").dropWhile (fun c => decide (c ∈ str " :"))).takeWhile
              (fun c => !decide (c ∈ str " :"))).dropWhile isspace) :=
  read_header_key_value (str "Key") (str " a b") (header_of (str "Key") (str "a"))
    (by decide) (by decide) (by decide) (by decide) (by decide) (by decide)

/-! ## The header codec -/

/-- C5, as the code has it: for fewer than `header_buf_size` headers that are
all `plain_header` (key and value not empty and free of NUL, space, ':' and
newline, key shorter than 30 bytes, value not starting with white space,
line of at most 511 bytes), `read_headers` on the encoded block returns
their number, has stored the same keys and values in the same order, and
has taken exactly the block off the stream. -/
theorem read_headers_round_trip (hs : List (List Nat × List Nat)) (rest : List Nat)
    (header_buf_size : Nat) (hplain : ∀ kv ∈ hs, plain_header kv)
    (hroom : hs.length < header_buf_size) :
    read_headers (encode_headers hs ++ rest) header_buf_size
        = .ok (hs.length, hs.map (fun kv => header_of kv.1 kv.2), rest)
      ∧ (hs.map (fun kv => header_of kv.1 kv.2)).map
            (fun h => (string_of h.key, string_of h.value))
          = hs.map (fun kv => (some kv.1, some kv.2)) := by
  constructor
  · have := read_headers_loop_encode hs [] ((encode_headers hs ++ rest).length + 1) rest
      header_buf_size hplain (by simpa using hroom) (by omega)
    simpa [read_headers] using this
  · rw [List.map_map]
    apply List.map_congr_left
    intro kv hkv
    obtain ⟨_, hklen, hk, _, hv, _, hline⟩ := hplain kv hkv
    simp only [Function.comp, header_of, Prod.mk.injEq]
    exact ⟨string_of_strncpy _ _ hklen (fun c hc => (hk c hc).1),
      string_of_strncpy _ _ (by simp only [BUFFER_SIZE, MAX_HEADER_VALUE_LEN] at hline ⊢; omega)
        (fun c hc => (hv c hc).1)⟩

set_option maxRecDepth 100000 in
/-- C5 fails on the code: the value `a b` comes back as `a`, the value `a:b`
as `a`, a value that starts with a tab comes back without it, the key `A B`
comes back as `A` with the value `B`; a key of 30 bytes is stored without a
terminating NUL; an empty key and a value of 512 bytes make `read_header`
dereference the NULL that `strtok` returns; a line of 512 bytes is read in
two pieces, so that the `\n` that ends the block is left on the stream; and
a block of `MAX_HEADER` headers is refused. -/
theorem read_headers_round_trip_fails :
    read_headers (encode_headers [(str "K", str "a b")]) MAX_HEADER
        = .ok (1, [header_of (str "K") (str "a")], [])
      ∧ read_headers (encode_headers [(str "K", str "a:b")]) MAX_HEADER
        = .ok (1, [header_of (str "K") (str "a")], [])
      ∧ read_headers (encode_headers [(str "K", str "\tv")]) MAX_HEADER
        = .ok (1, [header_of (str "K") (str "v")], [])
      ∧ read_headers (encode_headers [(str "A B", str "v")]) MAX_HEADER
        = .ok (1, [header_of (str "A") (str "B")], [])
      ∧ (read_headers (encode_headers [(List.replicate 30 75, str "v")]) MAX_HEADER
          = .ok (1, [header_of (List.replicate 30 75) (str "v")], [])
        ∧ string_of (header_of (List.replicate 30 75) (str "v")).key = none)
      ∧ read_headers (encode_headers [([], str "v")]) MAX_HEADER = .fault
      ∧ read_headers (encode_headers [(str "K", List.replicate 512 97)]) MAX_HEADER = .fault
      ∧ read_headers (encode_headers [(str "K", List.replicate 508 97)]) MAX_HEADER
        = .ok (1, [header_of (str "K") (List.replicate 508 97)], str "\n")
      ∧ read_headers (encode_headers (List.replicate 10 (str "K", str "v"))) MAX_HEADER
        = .exit 1 (str "\ntoo many headers\n") :=
  ⟨by decide, by decide, by decide, by decide, ⟨by decide, by decide⟩, by decide, by decide,
    by decide, by decide⟩

set_option maxRecDepth 100000 in
/-- C5 as the code has it, at the block `Channel: o`, `Size: 3` followed by
the payload `abc`. -/
theorem read_headers_round_trip_witness :
    read_headers (encode_headers [(str "Channel", str "o"), (str "Size", str "3")] ++ str "abc")
        MAX_HEADER
        = .ok (2, [header_of (str "Channel") (str "o"), header_of (str "Size") (str "3")],
            str "abc")
      ∧ ([header_of (str "Channel") (str "o"), header_of (str "Size") (str "3")]).map
            (fun h => (string_of h.key, string_of h.value))
          = [(some (str "Channel"), some (str "o")), (some (str "Size"), some (str "3"))] :=
  read_headers_round_trip [(str "Channel", str "o"), (str "Size", str "3")] (str "abc")
    MAX_HEADER (by decide) (by decide)

/-! ## The size of the request -/

/-- C9, as the code has it: the bound of 512 bytes is on the whole request.
With a `read_buf` of `BUFFER_SIZE` bytes whose byte after the `Cwd` line is
NUL (or with no arguments), a request whose encoded length is at most 512
bytes is sent as encoded, and a request with a value of 512 bytes or more,
be it the working directory, an argument or the class path, is not sent. -/
theorem send_header_size_limit (stack cwd : List Nat) (argv : List (List Nat))
    (cp : Option (List Nat)) (hstack : stack.length = BUFFER_SIZE)
    (hcwd : ∀ c ∈ cwd, c ≠ 0) (hargs : ∀ a ∈ argv.drop 1, ∀ c ∈ a, c ≠ 0)
    (hclean : argv.drop 1 = [] ∨ (stack.drop (cwd.length + 6)).head? = some 0) :
    ((request cwd argv cp).length ≤ BUFFER_SIZE →
        send_header stack (some cwd) argv cp = .ok (request cwd argv cp))
      ∧ ((BUFFER_SIZE ≤ cwd.length ∨ (∃ a ∈ argv.drop 1, BUFFER_SIZE ≤ a.length)
            ∨ ∃ c, cp = some c ∧ c ≠ [] ∧ BUFFER_SIZE ≤ c.length) →
          ∀ out, send_header stack (some cwd) argv cp ≠ .ok out) := by
  refine ⟨send_header_request stack cwd argv cp hstack hcwd hargs hclean, ?_⟩
  intro hbig out hout
  have hs := send_header_values_short stack cwd argv cp out hstack hout
  rcases hbig with h | ⟨a, ha, h⟩ | ⟨c, hc, hne, h⟩
  · omega
  · have := hs.2.1 a ha; omega
  · have := hs.2.2 c hc hne; omega

set_option maxRecDepth 100000 in
/-- C9 fails on the code: with the working directory `/` and a single
argument of exactly 512 bytes nothing is sent, the argument does not fit in
`read_buf`. -/
theorem send_header_value_512_not_sent :
    send_header (List.replicate 512 0) (some (str "/"))
        [str "groovyclient", List.replicate 512 97] none
      = .fault := by
  decide

set_option maxRecDepth 100000 in
/-- C9 as the code has it, at the working directory `/`: with an argument of
498 bytes the request has exactly 512 bytes and is sent, with an argument
of 512 bytes it is not. -/
theorem send_header_size_limit_witness :
    send_header (List.replicate 512 0) (some (str "/"))
        [str "groovyclient", List.replicate 498 97] none
        = .ok (request (str "/") [str "groovyclient", List.replicate 498 97] none)
      ∧ (request (str "/") [str "groovyclient", List.replicate 498 97] none).length = 512
      ∧ send_header (List.replicate 512 0) (some (str "/"))
          [str "groovyclient", List.replicate 512 97] none
        ≠ .ok (request (str "/") [str "groovyclient", List.replicate 512 97] none) :=
  ⟨(send_header_size_limit (List.replicate 512 0) (str "/")
        [str "groovyclient", List.replicate 498 97] none
        (by decide) (by decide) (by decide) (Or.inr (by decide))).1 (by decide),
    by decide,
    (send_header_size_limit (List.replicate 512 0) (str "/")
        [str "groovyclient", List.replicate 512 97] none
        (by decide) (by decide) (by decide) (Or.inr (by decide))).2
      (Or.inr (Or.inl ⟨List.replicate 512 97, by decide, by decide⟩)) _⟩

/-! ## The lines `read_header` refuses -/

/-- What `read_header` refuses with a message: on a line
`<key><colon><rest>\n` whose key is not empty and holds no space, it ends
the process with status 1, storing no header, when the key has more than 30
bytes; and, the key having at most 30 bytes, when the value token, the first
run of bytes of `<rest>` that holds neither a space nor a ':', is longer
than 512 bytes without the white space at its start, or is white space
only. -/
theorem read_header_rejects (key rest : List Nat) (hne : key ≠ [])
    (hkey : ∀ c ∈ key, c ≠ 0 ∧ c ≠ 32 ∧ c ≠ 58) (hrest : ∀ c ∈ rest, c ≠ 0 ∧ c ≠ 10) :
    (MAX_HEADER_KEY_LEN < key.length →
        read_header (key ++ 58 :: rest ++ [10])
          = .exit 1 (str "\nkey " ++ key ++ str " too long\n"))
      ∧ (key.length ≤ MAX_HEADER_KEY_LEN →
          MAX_HEADER_VALUE_LEN < (((rest.dropWhile (fun c => decide (c ∈ str " :"))).takeWhile
            (fun c => !decide (c ∈ str " :"))).dropWhile isspace).length →
          read_header (key ++ 58 :: rest ++ [10])
            = .exit 1 (str "\nkey " ++ ((rest.dropWhile
                (fun c => decide (c ∈ str " :"))).takeWhile
                (fun c => !decide (c ∈ str " :"))).dropWhile isspace ++ str " too long\n"))
      ∧ (key.length ≤ MAX_HEADER_KEY_LEN →
          rest.dropWhile (fun c => decide (c ∈ str " :")) ≠ [] →
          ((rest.dropWhile (fun c => decide (c ∈ str " :"))).takeWhile
            (fun c => !decide (c ∈ str " :"))).dropWhile isspace = [] →
          read_header (key ++ 58 :: rest ++ [10]) = .exit 1 (str "\nformat error\n")) := by
  have h := read_header_cases key rest hne hkey hrest
  refine ⟨?_, ?_, ?_⟩
  · intro hk
    rw [h, if_pos hk]
  · intro hk hv
    have hnil : rest.dropWhile (fun c => decide (c ∈ str " :")) ≠ [] := by
      intro h0
      rw [h0] at hv
      simp at hv
    have hv0 : ((rest.dropWhile (fun c => decide (c ∈ str " :"))).takeWhile
        (fun c => !decide (c ∈ str " :"))).dropWhile isspace ≠ [] := by
      intro h0
      rw [h0] at hv
      simp at hv
    rw [h, if_neg (by omega), if_neg hnil, if_neg hv0, if_pos hv]
  · intro hk hnil hv
    rw [h, if_neg (by omega), if_neg hnil, if_pos hv]

set_option maxRecDepth 100000 in
/-- C11 fails on the code: on `Key:` followed by the newline, and on `Key:`
followed by spaces and the newline, the second `strtok` finds no token and
returns NULL, which `read_header` dereferences instead of reporting a
format error with exit status 1; the format error is reported only when
there is a token, as for a value that is a tab. -/
theorem read_header_empty_value_faults :
    read_header (str "Key:\n") = .fault
      ∧ read_header (str "Key:   \n") = .fault
      ∧ read_header (str "Key: \t\n") = .exit 1 (str "\nformat error\n") :=
  ⟨by decide, by decide, by decide⟩

/-! ## Decoding a header block -/

/-- C12, as the code has it: on a stream that starts with fewer than
`header_buf_size` lines, each taken whole by one `fgets` (at most 511 bytes
with its newline) and accepted by `read_header`, `read_headers` stores the
header of each line, in order. When an empty line follows, a bare newline or
a carriage return and a newline, it returns their number and has taken the
stream up to and including that line, and no byte more; when the stream
ends there it returns 0. -/
theorem read_headers_lines (lhs : List (List Nat × header_t)) (rest : List Nat)
    (header_buf_size : Nat)
    (hlines : ∀ p ∈ lhs, (∀ c ∈ p.1, c ≠ 10) ∧ p.1.length + 1 < BUFFER_SIZE
      ∧ read_header (p.1 ++ [10]) = .ok p.2)
    (hroom : lhs.length < header_buf_size) :
    read_headers (lines_block (lhs.map Prod.fst) ++ 10 :: rest) header_buf_size
        = .ok (lhs.length, lhs.map Prod.snd, rest)
      ∧ read_headers (lines_block (lhs.map Prod.fst) ++ 13 :: 10 :: rest) header_buf_size
        = .ok (lhs.length, lhs.map Prod.snd, rest)
      ∧ read_headers (lines_block (lhs.map Prod.fst)) header_buf_size
        = .ok (0, lhs.map Prod.snd, []) := by
  have hlen := lines_block_length (lhs.map Prod.fst)
  rw [List.length_map] at hlen
  have key : ∀ X : List Nat, read_headers (lines_block (lhs.map Prod.fst) ++ X) header_buf_size
      = read_headers_loop ((lines_block (lhs.map Prod.fst) ++ X).length - lhs.length + 1) X
          (lhs.map Prod.snd) header_buf_size := by
    intro X
    have e : (lines_block (lhs.map Prod.fst) ++ X).length + 1
        = lhs.length + ((lines_block (lhs.map Prod.fst) ++ X).length - lhs.length + 1) := by
      simp only [List.length_append]; omega
    unfold read_headers
    rw [e, read_headers_loop_lines lhs [] _ X header_buf_size hlines (by simpa using hroom)]
    simp
  refine ⟨?_, ?_, ?_⟩
  · rw [key, (read_headers_loop_blank _ _ rest _).1]
    simp
  · rw [key, (read_headers_loop_blank _ _ rest _).2.1]
    simp
  · have := key []
    rw [List.append_nil] at this
    rw [this, (read_headers_loop_blank _ _ [] _).2.2]

set_option maxRecDepth 100000 in
/-- C12 fails on the code: ten header lines are refused, before an empty
line as well as before the end of the stream; when the stream ends inside a
line that has no value yet, `read_header` dereferences the NULL that
`strtok` returns; and a line of 516 bytes is read in two pieces, the second
of which is taken for a line of its own. -/
theorem read_headers_lines_fails :
    read_headers (lines_block (List.replicate 10 (str "K: v")) ++ str "\n") MAX_HEADER
        = .exit 1 (str "\ntoo many headers\n")
      ∧ read_headers (lines_block (List.replicate 10 (str "K: v"))) MAX_HEADER
        = .exit 1 (str "\ntoo many headers\n")
      ∧ read_headers (str "Channel: o\nSize") MAX_HEADER = .fault
      ∧ read_headers (lines_block [str "K: " ++ List.replicate 512 97] ++ str "\n") MAX_HEADER
        = .fault :=
  ⟨by decide, by decide, by decide, by decide⟩

set_option maxRecDepth 100000 in
/-- C12 as the code has it, at the lines `Channel: o` and `Size: 3` followed
by an empty line and the payload `abc`, or by the end of the stream. -/
theorem read_headers_lines_witness :
    read_headers (lines_block [str "Channel: o", str "Size: 3"] ++ 10 :: str "abc") MAX_HEADER
        = .ok (2, [header_of (str "Channel") (str "o"), header_of (str "Size") (str "3")],
            str "abc")
      ∧ read_headers (lines_block [str "Channel: o", str "Size: 3"] ++ 13 :: 10 :: str "abc")
          MAX_HEADER
        = .ok (2, [header_of (str "Channel") (str "o"), header_of (str "Size") (str "3")],
            str "abc")
      ∧ read_headers (lines_block [str "Channel: o", str "Size: 3"]) MAX_HEADER
        = .ok (0, [header_of (str "Channel") (str "o"), header_of (str "Size") (str "3")],
            []) :=
  read_headers_lines
    [(str "Channel: o", header_of (str "Channel") (str "o")),
      (str "Size: 3", header_of (str "Size") (str "3"))]
    (str "abc") MAX_HEADER (by decide) (by decide)

/-! ## Looking a header up -/

/-- C13: for an array of at least `n` headers whose first `n` keys are
strings, and a string `k`, `find_header(headers, k, n)` returns the value
of the first header among the first `n` whose key is `k` byte for byte,
whatever the headers after it hold, and returns NULL if and only if none
of the first `n` keys is `k`. -/
theorem find_header_first_match (headers : List header_t) (k : List Nat) (n : Nat)
    (hn : n ≤ headers.length) (hkeys : ∀ h ∈ headers.take n, 0 ∈ h.key)
    (hk : ∀ c ∈ k, c ≠ 0) :
    (∀ pre h post, headers = pre ++ h :: post → pre.length < n →
        (∀ x ∈ pre, c_string x.key ≠ k) → c_string h.key = k →
        find_header headers k n = .ok (some h.value))
      ∧ (find_header headers k n = .ok none ↔ ∀ h ∈ headers.take n, c_string h.key ≠ k) := by
  constructor
  · intro pre h post heq hlt hpre hkey
    subst heq
    have htake : (pre ++ h :: post).take n = pre ++ (h :: post).take (n - pre.length) := by
      rw [List.take_append_eq_append_take, List.take_of_length_le (by omega)]
    obtain ⟨m, hm⟩ : ∃ m, n - pre.length = m + 1 := ⟨n - pre.length - 1, by omega⟩
    rw [htake, hm, List.take_succ_cons] at hkeys
    rw [find_header_miss pre (h :: post) k n (by omega)
      (fun x hx => ⟨hkeys x (List.mem_append_left _ hx), hpre x hx⟩) hk, hm, find_header,
      strcmp_eq_string h.key k (hkeys h (List.mem_append_right _ (by simp))) hk]
    simp [hkey]
  · rw [find_header_eq_find headers k n hn hkeys hk]
    simp only [Outcome.ok.injEq, Option.map_eq_none', List.find?_eq_none, decide_eq_true_eq]

set_option maxRecDepth 100000 in
/-- C13 at an array with the key `Size` twice and the key `size` in between:
the lookup of `Size` among the first three headers gives the first value,
the lookup of `Status` gives NULL. -/
theorem find_header_first_match_witness :
    find_header [header_of (str "Channel") (str "o"), header_of (str "Size") (str "3"),
        header_of (str "size") (str "4"), header_of (str "Size") (str "5")] (str "Size") 4
        = .ok (some (header_of (str "Size") (str "3")).value)
      ∧ find_header [header_of (str "Channel") (str "o"), header_of (str "Size") (str "3"),
          header_of (str "size") (str "4"), header_of (str "Size") (str "5")] (str "Status") 4
        = .ok none :=
  ⟨(find_header_first_match _ (str "Size") 4 (by decide) (by decide) (by decide)).1
      [header_of (str "Channel") (str "o")] (header_of (str "Size") (str "3"))
      [header_of (str "size") (str "4"), header_of (str "Size") (str "5")]
      rfl (by decide) (by decide) (by decide),
    (find_header_first_match _ (str "Status") 4 (by decide) (by decide) (by decide)).2.mpr
      (by decide)⟩

/-! ## Connecting to the server -/

/-- C14 fails on the code: with `ECONNREFUSED` = 111 and a `connect` that
fails, `open_socket` returns the retry signal -1 whatever `errno` is, also
for 110 (timed out) and 13 (permission denied): line 92 assigns to `errno`
instead of comparing it, and the `perror` and `exit(1)` after it are never
reached. -/
theorem open_socket_retries_on_any_error :
    (∀ errno : Int,
        open_socket 111 { gethostbyname := true, socket := 3, connect := -1, errno := errno }
          = .ok (-1))
      ∧ open_socket 111 { gethostbyname := true, socket := 3, connect := -1, errno := 110 }
          = .ok (-1)
      ∧ open_socket 111 { gethostbyname := true, socket := 3, connect := -1, errno := 13 }
          = .ok (-1) :=
  ⟨fun _ => rfl, by decide, by decide⟩

/-! ## The buffer of `split_socket_output` -/

/-- C18 fails on the code: in a first call with size 513 the sizing step
leaves `read_buf_size` at 513 with 512 bytes allocated, so the 513 bytes
about to be read do not fit; and after a first call with size 0 the sizing
step of a call with size 1 never ends. -/
theorem size_read_buf_exceeds_allocation :
    size_read_buf none 513 = .ok { allocated := 512, read_buf_size := 513, content := [] }
      ∧ size_read_buf none 0 = .ok { allocated := 512, read_buf_size := 0, content := [] }
      ∧ size_read_buf (some { allocated := 512, read_buf_size := 0, content := [] }) 1
        = .hang :=
  ⟨by decide, by decide, by decide⟩

/-- C19 fails on the code: a first call with size 0 leaves `read_buf_size`
at 0, and in the next call, with size 1, the loop that doubles it does not
end within any number of turns, so that call does not return. And after a
first call with size 1, a call with size 2^30 + 1 doubles `read_buf_size`
up to 2^30 and then past `INT_MAX`. -/
theorem grow_from_zero_never_ends :
    (split_socket_output (world_of (str "x")) (str "e" ++ [0]) 0).bind
        (fun r => .ok r.2.read_buf)
        = .ok (some { allocated := 512, read_buf_size := 0, content := [] })
      ∧ (∀ fuel, grow fuel 0 1 = .hang)
      ∧ (split_socket_output (world_of (str "x")) (str "e" ++ [0]) 0).bind
          (fun r => split_socket_output r.2 (str "e" ++ [0]) 1) = .hang
      ∧ grow 64 1 1073741825 = .fault :=
  ⟨by decide, fun fuel => grow_zero fuel 1 (by decide), by decide, by decide⟩

/-! ## Starting the server -/

/-- C15: when the first `k` connection attempts are refused, each
`start_server` after them returning, and the next attempt connects with
the descriptor `fd`, the calls `main` makes are `k` times `start_server`,
then `send_header` on `fd` once, and then, when `send_header` returns,
`session` on `fd`. `ECONNREFUSED` is not 0. -/
theorem main_starts_server (ECONNREFUSED : Int) (MAXPATHLEN : Nat) (argv : List (List Nat))
    (stack : List Nat) (getcwd classpath : Option (List Nat)) (events : List Event)
    (refused more : List (Attempt × StartEnv)) (a : Attempt) (env : StartEnv) (w : World)
    (hE : ECONNREFUSED ≠ 0)
    (hrefused : ∀ p ∈ refused,
      (p.1.gethostbyname = true ∧ 0 ≤ p.1.socket ∧ p.1.connect < 0 ∧ p.1.errno = ECONNREFUSED)
        ∧ ∃ cmds, start_server MAXPATHLEN p.2 argv = .ok cmds)
    (hconnect : a.gethostbyname = true ∧ 0 ≤ a.socket ∧ 0 ≤ a.connect) :
    (main ECONNREFUSED MAXPATHLEN argv stack getcwd classpath events
        (refused ++ (a, env) :: more) w).calls
      = List.replicate refused.length Call.start_server
        ++ Call.send_header a.socket ::
          (match send_header stack getcwd argv classpath with
            | .ok _ => [Call.session a.socket]
            | _ => []) := by
  obtain ⟨w1, h1⟩ := main_loop_refused ECONNREFUSED MAXPATHLEN argv stack getcwd classpath
    events hE refused ((a, env) :: more) w []
    (fun p hp => ⟨⟨(hrefused p hp).1.1, (hrefused p hp).1.2.1, (hrefused p hp).1.2.2.1⟩,
      (hrefused p hp).2⟩)
  unfold main
  rw [h1, main_loop, open_socket_connected ECONNREFUSED a hconnect]
  simp only
  rw [if_neg (by omega)]
  unfold main_session
  cases send_header stack getcwd argv classpath <;> simp

set_option maxRecDepth 100000 in
/-- C15 at two refused attempts followed by a connection on descriptor 3:
`start_server` twice, then `send_header`, then `session`; the session ends
with the status the server sends. -/
theorem main_starts_server_witness :
    (main 111 1024 [str "/usr/bin/groovyclient", str "x"] (List.replicate 512 0)
        (some (str "/")) none [.ready false true]
        ([({ gethostbyname := true, socket := 3, connect := -1, errno := 111 },
            { home := some (str "/home/u"), stat1 := .absent, stat2 := .absent }),
          ({ gethostbyname := true, socket := 3, connect := -1, errno := 111 },
            { home := some (str "/home/u"), stat1 := .directory, stat2 := .directory })]
          ++ ({ gethostbyname := true, socket := 3, connect := 0, errno := 0 },
              { home := none, stat1 := .failed, stat2 := .failed }) :: [])
        (world_of (str "Status: 7\n\n"))).calls
      = List.replicate 2 Call.start_server
        ++ Call.send_header 3 ::
          (match send_header (List.replicate 512 0) (some (str "/"))
              [str "/usr/bin/groovyclient", str "x"] none with
            | .ok _ => [Call.session 3]
            | _ => [])
    ∧ main 111 1024 [str "/usr/bin/groovyclient", str "x"] (List.replicate 512 0)
        (some (str "/")) none [.ready false true]
        [({ gethostbyname := true, socket := 3, connect := -1, errno := 111 },
            { home := some (str "/home/u"), stat1 := .absent, stat2 := .absent }),
          ({ gethostbyname := true, socket := 3, connect := -1, errno := 111 },
            { home := some (str "/home/u"), stat1 := .directory, stat2 := .directory }),
          ({ gethostbyname := true, socket := 3, connect := 0, errno := 0 },
            { home := none, stat1 := .failed, stat2 := .failed })]
        (world_of (str "Status: 7\n\n"))
      = { calls := [.start_server, .start_server, .send_header 3, .session 3]
          ending := .exit 7
            { world_of [] with
              sock_out := str "Cwd: /\nArg: x\n\n"
              err := str "starting server..\nstarting server..\n" } } :=
  ⟨main_starts_server 111 1024 _ _ _ _ _ _ [] _ _ _ (by decide)
      (by
        intro p hp
        simp only [List.mem_cons, List.mem_singleton, List.not_mem_nil, or_false] at hp
        rcases hp with rfl | rfl
        · exact ⟨by decide, _, rfl⟩
        · exact ⟨by decide, _, rfl⟩)
      (by decide),
    by decide⟩

/-! ## Forwarding stdin -/

/-- C16: in `session`, a turn in which stdin is ready and not yet closed
forwards what `read` returns: for `n > 0` bytes the socket gets `Size: n`,
an empty line and those `n` bytes, and stdin stays open; for 0 bytes the
socket gets `Size: 0` and an empty line, and stdin is closed. In both cases
the turn goes on with the socket as a turn without stdin would. Once stdin
is closed a turn ignores that stdin is ready, and whatever events follow,
nothing more is read from stdin and nothing more is written to the socket,
while the socket part of each turn runs as before. -/
theorem session_stdin_forwarding :
    (∀ (w : World) (chunk : List Nat) (more : List (Option (List Nat))) (sock : Bool)
        (events : List Event),
        w.stdin = some chunk :: more → 0 < chunk.length → chunk.length ≤ BUFFER_SIZE →
        session (.ready true sock :: events) false w
          = session (.ready false sock :: events) false
              { w with
                stdin := more
                sock_out := w.sock_out ++ (str "Size: " ++ itoa chunk.length ++ str "\n\n")
                  ++ chunk })
      ∧ (∀ (w : World) (more : List (Option (List Nat))) (sock : Bool) (events : List Event),
          w.stdin = some [] :: more →
          session (.ready true sock :: events) false w
            = session (.ready false sock :: events) true
                { w with stdin := more, sock_out := w.sock_out ++ str "Size: 0\n\n" })
      ∧ (∀ (w : World) (stdin_ready sock : Bool) (events : List Event),
          session (.ready stdin_ready sock :: events) true w
            = session (.ready false sock :: events) true w)
      ∧ (∀ (w w1 : World) (events : List Event),
          (session events true w).final = some w1 →
          w1.stdin = w.stdin ∧ w1.sock_out = w.sock_out) := by
  refine ⟨?_, ?_, ?_, ?_⟩
  · intro w chunk more sock events hstdin hpos hlen
    have htake : chunk.take BUFFER_SIZE = chunk := List.take_of_length_le hlen
    have hne : chunk.length ≠ 0 := by omega
    have hnot : ¬ BUFFER_SIZE < chunk.length := by omega
    rw [session, session]
    simp [session_stdin, send_to_server, hstdin, htake, hne, hnot]
  · intro w more sock events hstdin
    have h0 : str "Size: " ++ itoa 0 ++ str "\n\n" = str "Size: 0\n\n" := by decide
    rw [session, session]
    simp [session_stdin, send_to_server, hstdin, h0]
  · intro w stdin_ready sock events
    rw [session, session]
    simp [session_stdin]
  · intro w w1 events h
    exact session_closed_keeps events w w1 h

set_option maxRecDepth 100000 in
/-- C16 at the run of the spec: stdin is ready with `hi`, then the socket
with an output chunk, then stdin at its end, then stdin is reported ready
again together with the `Status` frame. The socket gets `Size: 2`, `hi` and
`Size: 0`, and nothing after that. -/
theorem session_stdin_forwarding_witness :
    session [.ready true false, .ready false true, .ready true false, .ready true true] false
        { world_of (str "Channel: o\nSize: 3\n\nabcStatus: 7\n\n") with
          stdin := [some (str "hi"), some [], some (str "late")] }
      = session [.ready false false, .ready false true, .ready true false, .ready true true]
          false
          { world_of (str "Channel: o\nSize: 3\n\nabcStatus: 7\n\n") with
            stdin := [some [], some (str "late")]
            sock_out := [] ++ (str "Size: " ++ itoa (str "hi").length ++ str "\n\n")
              ++ str "hi" }
    ∧ (session [.ready true false, .ready false true, .ready true false, .ready true true]
        false
        { world_of (str "Channel: o\nSize: 3\n\nabcStatus: 7\n\n") with
          stdin := [some (str "hi"), some [], some (str "late")] }).final.map
        (fun w => (w.sock_out, w.stdin, w.out))
      = some (str "Size: 2\n\nhiSize: 0\n\n", [some (str "late")], str "abc") :=
  ⟨session_stdin_forwarding.1
      { world_of (str "Channel: o\nSize: 3\n\nabcStatus: 7\n\n") with
        stdin := [some (str "hi"), some [], some (str "late")] }
      (str "hi") [some [], some (str "late")] false _ rfl (by decide) (by decide),
    by decide⟩

/-! ## Carriage returns -/

set_option maxRecDepth 100000 in
/-- C17 fails on the code: the block `Channel: o`, `Size: 1` with every line
ended by a carriage return and a newline is decoded with the carriage
return as the last byte of each value, while the same block with lines
ended by a newline gives the values `o` and `1`; only on the empty line is
the carriage return skipped. In `session` the frame is then refused, its
channel being `o` and a carriage return. -/
theorem read_headers_keeps_carriage_return :
    read_headers (str "Channel: o\r\nSize: 1\r\n\r\n") MAX_HEADER
        = .ok (2, [header_of (str "Channel") (str "o\r"), header_of (str "Size") (str "1\r")],
            [])
      ∧ read_headers (str "Channel: o\nSize: 1\n\n") MAX_HEADER
        = .ok (2, [header_of (str "Channel") (str "o"), header_of (str "Size") (str "1")], [])
      ∧ header_of (str "Channel") (str "o\r") ≠ header_of (str "Channel") (str "o")
      ∧ session [.ready false true] false (world_of (str "Channel: o\r\nSize: 1\r\n\r\nx"))
        = .exited 1 { world_of (str "Channel: o\r\nSize: 1\r\n\r\nx") with
            err := str "\nunrecognizable stream identifier: o\r.\n" } :=
  ⟨by decide, by decide, by decide, by decide⟩

/-! ## The capacity of the header array -/

/-- C20: for an array of `header_buf_size` headers, at least one, the loop of
`read_headers` passes `headers + pos` to `read_header` only for indices
`pos` below `header_buf_size`; when it returns, the count returned and the
number of headers stored are below `header_buf_size`, the headers stored
being those of the indices 0, 1, 2 and so on; and a stream that starts with
`header_buf_size` lines or more, each taken whole by one `fgets` and
accepted by `read_header`, ends the process with status 1 and the message
`too many headers`. -/
theorem read_headers_capacity (stream : List Nat) (header_buf_size : Nat)
    (hsize : 0 < header_buf_size) :
    (∀ i ∈ read_headers_stores (stream.length + 1) stream 0 header_buf_size,
        i < header_buf_size)
      ∧ (∀ n hs rest, read_headers stream header_buf_size = .ok (n, hs, rest) →
          n < header_buf_size ∧ hs.length < header_buf_size
            ∧ read_headers_stores (stream.length + 1) stream 0 header_buf_size
              = List.range hs.length)
      ∧ (∀ (lhs : List (List Nat × header_t)) (X : List Nat),
          stream = lines_block (lhs.map Prod.fst) ++ X →
          (∀ p ∈ lhs, (∀ c ∈ p.1, c ≠ 10) ∧ p.1.length + 1 < BUFFER_SIZE
            ∧ read_header (p.1 ++ [10]) = .ok p.2) →
          header_buf_size ≤ lhs.length →
          read_headers stream header_buf_size = .exit 1 (str "\ntoo many headers\n")) := by
  refine ⟨?_, ?_, ?_⟩
  · intro i hi
    exact (read_headers_stores_bound _ stream 0 header_buf_size hsize i hi).2
  · intro n hs rest h
    have hc := read_headers_loop_count _ stream [] header_buf_size n hs rest h
    have hst := read_headers_stored h
    simp only [List.length_nil, Nat.sub_zero] at hc
    have hlt := hc.2.1 hsize
    refine ⟨by rcases hst.1 with h0 | h0 <;> omega, hlt, ?_⟩
    rw [hc.2.2, List.range_eq_range']
  · intro lhs X hstream hlines hmany
    subst hstream
    have hlen := lines_block_length (lhs.map Prod.fst)
    rw [List.length_map] at hlen
    have e : (lines_block (lhs.map Prod.fst) ++ X).length + 1
        = lhs.length + ((lines_block (lhs.map Prod.fst) ++ X).length - lhs.length + 1) := by
      simp only [List.length_append]; omega
    unfold read_headers
    rw [e]
    exact read_headers_loop_too_many lhs [] _ X header_buf_size hlines
      (by simpa using hsize) (by simpa using hmany)

set_option maxRecDepth 100000 in
/-- C20 with `MAX_HEADER` = 10: a block of ten headers is refused, a block of
nine is returned, stored at the indices 0 to 8. -/
theorem read_headers_capacity_witness :
    read_headers (lines_block (List.replicate 10 (str "K: v")) ++ str "\n") MAX_HEADER
        = .exit 1 (str "\ntoo many headers\n")
      ∧ (∀ i ∈ read_headers_stores
            ((lines_block (List.replicate 10 (str "K: v")) ++ str "\n").length + 1)
            (lines_block (List.replicate 10 (str "K: v")) ++ str "\n") 0 MAX_HEADER,
          i < MAX_HEADER)
      ∧ read_headers (lines_block (List.replicate 9 (str "K: v")) ++ str "\n") MAX_HEADER
        = .ok (9, List.replicate 9 (header_of (str "K") (str "v")), [])
      ∧ read_headers_stores
            ((lines_block (List.replicate 9 (str "K: v")) ++ str "\n").length + 1)
            (lines_block (List.replicate 9 (str "K: v")) ++ str "\n") 0 MAX_HEADER
          = List.range 9 :=
  ⟨(read_headers_capacity _ MAX_HEADER (by decide)).2.2
      (List.replicate 10 (str "K: v", header_of (str "K") (str "v"))) (str "\n")
      (by decide) (by decide) (by decide),
    (read_headers_capacity _ MAX_HEADER (by decide)).1,
    by decide,
    ((read_headers_capacity (lines_block (List.replicate 9 (str "K: v")) ++ str "\n")
        MAX_HEADER (by decide)).2.1 9 (List.replicate 9 (header_of (str "K") (str "v"))) []
      (by decide)).2.2⟩

end GroovyClient
